import Mathlib

/-!
# A forward HTTP proxy with CONNECT tunnelling: model of `main.go`

The handlers of `main.go` are embedded as pure functions over an explicit
world: every answer the outside gives (the result of a dial, of the outbound
HTTP call, the chunks a stream yields, how many bytes a peer accepts, the
order in which goroutines are scheduled) is an input, and every effect a
handler has (log lines, dials, calls, closes) is an entry of a trace.

The operations of Go's standard library that the handlers call
(`http.Header.Add`, `http.ResponseWriter`, `http.Error`, `io.Copy`,
`sync.WaitGroup`) are modelled after their documented behaviour.
-/

namespace Proxy

/-! ## Bytes and header maps -/

/-- A byte string; every element stands for one octet. -/
abbrev Bytes := List Nat

/-- The octets of a text. -/
def bytesOf (s : String) : Bytes := s.data.map Char.toNat

/-- Go's `http.Header`, a `map[string][]string`: the entries are listed in the
order in which a `range` over the map visits them in the run at hand.  A map
has no two entries with one key (`Header.WF`). -/
abbrev Header := List (String × List String)

/-- The names of a header map. -/
def Header.names (h : Header) : List String := h.map Prod.fst

/-- A header map is well formed when no name occurs twice. -/
def Header.WF (h : Header) : Prop := (Header.names h).Nodup

instance Header.decidableWF (h : Header) : Decidable (Header.WF h) :=
  inferInstanceAs (Decidable (Header.names h).Nodup)

/-- The map lookup with presence: `vs, ok := h[k]`. -/
def Header.find : Header → String → Option (List String)
  | [], _ => none
  | (k', vs) :: rest, k => if k' = k then some vs else Header.find rest k

/-- The map lookup `h[k]`: the values of `k`, or `nil` when `k` is absent. -/
def Header.Values (h : Header) (k : String) : List String :=
  (Header.find h k).getD []

/-- The map store `h[k] = vs`. -/
def Header.store : Header → String → List String → Header
  | [], k, vs => [(k, vs)]
  | (k', vs') :: rest, k, vs =>
    if k' = k then (k', vs) :: rest else (k', vs') :: Header.store rest k vs

/-- The map removal `delete(h, k)`. -/
def Header.remove : Header → String → Header
  | [], _ => []
  | (k', vs') :: rest, k =>
    if k' = k then Header.remove rest k else (k', vs') :: Header.remove rest k

/-- The octets allowed in a header field name (`validHeaderFieldByte` of
`net/textproto`): the token characters of RFC 7230. -/
def validHeaderFieldByte (c : Char) : Bool :=
  let n := c.toNat
  (48 ≤ n && n ≤ 57) || (65 ≤ n && n ≤ 90) || (97 ≤ n && n ≤ 122) ||
  n == 33 || n == 35 || n == 36 || n == 37 || n == 38 || n == 39 || n == 42 ||
  n == 43 || n == 45 || n == 46 || n == 94 || n == 95 || n == 96 || n == 124 ||
  n == 126

/-- The rewriting loop of `canonicalMIMEHeaderKey`: upper case for the first
letter and for a letter after a dash, lower case elsewhere. -/
def canonLoop : Bool → List Char → List Char
  | _, [] => []
  | upper, c :: cs =>
    let n := c.toNat
    let c' : Char :=
      if upper && (97 ≤ n && n ≤ 122) then Char.ofNat (n - 32)
      else if !upper && (65 ≤ n && n ≤ 90) then Char.ofNat (n + 32)
      else c
    c' :: canonLoop (c' == '-') cs

/-- Go's `textproto.CanonicalMIMEHeaderKey`: a name with an octet that is not a
token character is returned as it is, any other name is put in canonical
form. -/
def CanonicalMIMEHeaderKey (s : String) : String :=
  if s.data.all validHeaderFieldByte then String.mk (canonLoop true s.data) else s

/-- Go's `Header.Add`: `key = CanonicalMIMEHeaderKey(key); h[key] = append(h[key], value)`. -/
def Header.Add (h : Header) (key value : String) : Header :=
  let key := CanonicalMIMEHeaderKey key
  Header.store h key (Header.Values h key ++ [value])

/-- Go's `Header.Set`: `h[CanonicalMIMEHeaderKey(key)] = []string{value}`. -/
def Header.Set (h : Header) (key value : String) : Header :=
  Header.store h (CanonicalMIMEHeaderKey key) [value]

/-- Go's `Header.Del`: `delete(h, CanonicalMIMEHeaderKey(key))`. -/
def Header.Del (h : Header) (key : String) : Header :=
  Header.remove h (CanonicalMIMEHeaderKey key)

/-- A header map as the HTTP server delivers it: every name is in canonical
form and has at least one value (the server's header reader creates an entry
only by appending a value to it). -/
def Header.Delivered (h : Header) : Prop :=
  ∀ kv ∈ h, CanonicalMIMEHeaderKey kv.1 = kv.1 ∧ kv.2 ≠ []

instance Header.decidableDelivered (h : Header) : Decidable (Header.Delivered h) :=
  inferInstanceAs (Decidable (∀ kv ∈ h, CanonicalMIMEHeaderKey kv.1 = kv.1 ∧ kv.2 ≠ []))

/-- The inner loop of the header copy: `for _, value := range values { req.Header.Add(key, value) }`. -/
def addValues (dst : Header) (key : String) (values : List String) : Header :=
  values.foldl (fun acc value => Header.Add acc key value) dst

/-- The header copy loop of `handleHTTP`:
`for key, values := range r.Header { for _, value := range values { req.Header.Add(key, value) } }`. -/
def copyHeaders (src dst : Header) : Header :=
  src.foldl (fun acc kv => addValues acc kv.1 kv.2) dst

/-! ## Streams, writers and `io.Copy` -/

/-- How a stream ends once its chunks are consumed: end of stream, a read
error, or a peer that neither sends nor closes (the read never returns). -/
inductive ReadEnd
  | eof
  | err (msg : String)
  | block
  deriving DecidableEq, Repr

/-- An `io.Reader`: the chunks its successive `Read` calls yield, and how it
ends after them. -/
structure Reader where
  chunks : List Bytes
  final : ReadEnd
  deriving DecidableEq, Repr

/-- All octets a reader yields. -/
def Reader.data (r : Reader) : Bytes := r.chunks.flatten

/-- The write side of a connection: the octets accepted so far, how many more
the peer accepts before a write fails (`none`: no limit), and the error a
failing write reports. -/
structure Sink where
  got : Bytes
  room : Option Nat
  failMsg : String
  deriving DecidableEq, Repr

/-- One `Write` on a connection: everything is accepted while there is room;
otherwise the octets that fit are accepted and the write reports an error. -/
def Sink.Write (s : Sink) (p : Bytes) : Sink × Nat × Option String :=
  match s.room with
  | none => ({ s with got := s.got ++ p }, p.length, none)
  | some n =>
    if p.length ≤ n then
      ({ s with got := s.got ++ p, room := some (n - p.length) }, p.length, none)
    else
      ({ s with got := s.got ++ p.take n, room := some 0 }, n, some s.failMsg)

/-- The text of `io.ErrShortWrite`. -/
def errShortWrite : String := "short write"

/-- The text of io's `errInvalidWrite`. -/
def errInvalidWrite : String := "invalid write result"

/-- The body of the loop of `io.Copy` for one `Read` that returned the octets
`c`: when `c` is not empty it is written, the count is advanced by what the
writer took, and a write error, an invalid count or a short write ends the
copy with an error (the third component). -/
def copyChunk {σ : Type} (write : σ → Bytes → σ × Nat × Option String)
    (dst : σ) (c : Bytes) (written : Nat) : σ × Nat × Option String :=
  if 0 < c.length then
    let r := write dst c
    let bad := decide (c.length < r.2.1)
    let nw := if bad then 0 else r.2.1
    let ew := if bad then some (r.2.2.getD errInvalidWrite) else r.2.2
    match ew with
    | some e => (r.1, written + nw, some e)
    | none =>
      if nw ≠ c.length then (r.1, written + nw, some errShortWrite)
      else (r.1, written + nw, none)
  else (dst, written, none)

/-- How a copy ends: it returns `nil`, it returns an error, or it never
returns because the source blocks. -/
inductive CopyEnd
  | ok
  | failed (msg : String)
  | blocked
  deriving DecidableEq, Repr

/-- The loop of `io.Copy(dst, src)`, continued from the count `written`:
read a chunk, write it, stop at the first error of either side or at the end
of the source. -/
def ioCopyLoop {σ : Type} (write : σ → Bytes → σ × Nat × Option String)
    (final : ReadEnd) : List Bytes → σ → Nat → σ × Nat × CopyEnd
  | [], dst, written =>
    match final with
    | ReadEnd.eof => (dst, written, CopyEnd.ok)
    | ReadEnd.err e => (dst, written, CopyEnd.failed e)
    | ReadEnd.block => (dst, written, CopyEnd.blocked)
  | c :: rest, dst, written =>
    match copyChunk write dst c written with
    | (dst', written', some e) => (dst', written', CopyEnd.failed e)
    | (dst', written', none) => ioCopyLoop write final rest dst' written'

/-- Go's `io.Copy(dst, src)`: the writer afterwards, the count of octets
written, and how the copy ended.  The count is an `int64` in Go; a stream
cannot carry the `2^63` octets that would wrap it, so it is a natural number
here. -/
def ioCopy {σ : Type} (write : σ → Bytes → σ × Nat × Option String)
    (dst : σ) (src : Reader) : σ × Nat × CopyEnd :=
  ioCopyLoop write src.final src.chunks dst 0

/-! ## The response writer -/

/-- A network connection as the handler sees it: its two addresses, what
reading from it yields, and its write side. -/
structure Conn where
  localAddr : String
  remoteAddr : String
  incoming : Reader
  outgoing : Sink
  deriving DecidableEq, Repr

/-- What the type assertion `w.(http.Hijacker)` and the call `hj.Hijack()`
give: the writer is no hijacker, the hijack fails, or it hands over the
client connection. -/
inductive HijackCap
  | unsupported
  | fails (msg : String)
  | ok (conn : Conn)
  deriving DecidableEq, Repr

/-- The `http.ResponseWriter` of one request: the handler's header map, the
status line once it is written together with the header map as it was then
(later changes of the map have no effect on the response), the body as the
handler has written it (`body`: the octets `Write` has taken from the handler),
whether the request is a `HEAD` request, the body octets sent to the client
(`sent`: those of `body`, except that none are sent in answer to a `HEAD`
request), and the hijack capability. -/
structure ResponseWriter where
  header : Header
  status : Option Nat
  sentHeader : Header
  body : Sink
  head : Bool
  sent : Bytes
  hijack : HijackCap
  hijacked : Bool
  deriving DecidableEq, Repr

/-- A response writer at the start of a request that is not a `HEAD` request
(the server sets `head` from the request it serves, see `serve`). -/
def ResponseWriter.fresh (room : Option Nat) (failMsg : String) (hijack : HijackCap) :
    ResponseWriter :=
  { header := [], status := none, sentHeader := [],
    body := { got := [], room := room, failMsg := failMsg },
    head := false, sent := [],
    hijack := hijack, hijacked := false }

/-- Go's `ResponseWriter.WriteHeader(code)`: the first call fixes the status
and the headers sent; a later call, or a call on a hijacked connection, is
ignored. -/
def ResponseWriter.WriteHeader (w : ResponseWriter) (code : Nat) : ResponseWriter :=
  if w.hijacked then w
  else match w.status with
    | some _ => w
    | none => { w with status := some code, sentHeader := w.header }

/-- The text of `http.ErrHijacked`. -/
def errHijacked : String := "http: connection has been hijacked"

/-- Go's `ResponseWriter.Write(p)`: fails on a hijacked connection; otherwise
a first write sends the header with status 200 before the octets. In answer to
a `HEAD` request the response writer takes the octets and reports them all as
written, and sends none of them (the chunk writer of `net/http` eats the
writes); for any other request the octets go to the connection. -/
def ResponseWriter.Write (w : ResponseWriter) (p : Bytes) :
    ResponseWriter × Nat × Option String :=
  if w.hijacked then (w, 0, some errHijacked)
  else
    let w1 := w.WriteHeader 200
    if w1.head then
      ({ w1 with body := { w1.body with got := w1.body.got ++ p } }, p.length, none)
    else
      let r := w1.body.Write p
      ({ w1 with body := r.1, sent := w1.sent ++ p.take r.2.1 }, r.2.1, r.2.2)

/-- Go's `http.Error(w, error, code)`: sets the plain-text content type,
writes the header with `code`, and prints `error` and a line end as the body. -/
def httpError (w : ResponseWriter) (error : String) (code : Nat) : ResponseWriter :=
  let h := Header.Del w.header "Content-Length"
  let h := Header.Set h "Content-Type" "text/plain; charset=utf-8"
  let h := Header.Set h "X-Content-Type-Options" "nosniff"
  let w1 := ({ w with header := h } : ResponseWriter).WriteHeader code
  (w1.Write (bytesOf error ++ [10])).1

/-- What the server does when a handler has returned (`finishRequest`): a
response whose header was not written gets status 200; a hijacked connection
is left alone. -/
def finishRequest (w : ResponseWriter) : ResponseWriter := w.WriteHeader 200

/-! ## Requests, the outside world and the trace of effects -/

/-- The inbound `*http.Request`, as far as the handlers read it. -/
structure Request where
  method : String
  proto : String
  host : String
  url : String
  path : String
  header : Header
  body : Reader
  deriving DecidableEq, Repr

/-- The outbound request that `http.NewRequest` builds and the copy loop
fills. -/
structure Outbound where
  method : String
  url : String
  header : Header
  body : Reader
  deriving DecidableEq, Repr

/-- The upstream `*http.Response`. -/
structure Response where
  statusCode : Nat
  header : Header
  body : Reader
  deriving DecidableEq, Repr

/-- The three handlers. -/
inductive HandlerName
  | handleHTTP
  | handleTunnel
  | healthCheck
  deriving DecidableEq, Repr

/-- The two transfers of a tunnel: `up` copies from the client connection to
the destination (`transfer(&wg, dest_conn, src_conn, ...)`), `down` from the
destination to the client (`transfer(&wg, src_conn, dest_conn, ...)`). -/
inductive Dir
  | up
  | down
  deriving DecidableEq, Repr

/-- The lines the program prints, by the statement that prints them. -/
inductive LogLine
  | newRequestError (url err : String)
  | doError (url err : String)
  | copyError (url err : String)
  | relayed (proto method host : String) (statusCode kb : Nat)
  | tunnel (proto method host : String)
  | conns (srcConnStr dstConnStr : String)
  | transferError (srcName destName err : String)
  | copied (written : Nat) (srcName destName : String)
  | healthCheck
  deriving DecidableEq, Repr

/-- The effects of a run, in the order in which they happen. -/
inductive Event
  | call (h : HandlerName)
  | log (l : LogLine)
  | newRequest (method url : String)
  | clientDo (req : Outbound)
  | closeBody
  | dial (network addr : String) (timeoutSeconds : Nat)
  | hijack (ok : Bool)
  | wgAdd (n : Nat)
  | spawn (d : Dir)
  | wgDone (d : Dir)
  | wgWait
  | closeSrc
  | closeDest
  deriving DecidableEq, Repr

/-- The threads of a tunnel: the handler and its two transfer goroutines. -/
inductive Tid
  | main
  | transfer (d : Dir)
  deriving DecidableEq, Repr

/-- The outside world of one request: whether `http.NewRequest` accepts the
method and URL (`some err` when it does not), what `http.DefaultClient.Do`
returns for the outbound request, what `net.DialTimeout` returns for an
address, and the order in which the scheduler lets the threads of a tunnel
take their steps. -/
structure Env where
  newRequest : String → String → Option String
  roundTrip : Outbound → Except String Response
  dial : String → Except String Conn
  schedule : List Tid

/-! ## The tunnel: two transfers and a wait group -/

/-- Where a transfer goroutine stands: not started, inside `io.Copy`, after
`io.Copy` returned, before the deferred `wg.Done()`, or ended. -/
inductive TPc
  | idle
  | copying
  | copied (err : Option String)
  | exiting
  | finished
  deriving DecidableEq, Repr

/-- One transfer goroutine: its position, the rest of its source, its
destination, and the count of `io.Copy`. -/
structure Transfer where
  pc : TPc
  src : Reader
  dst : Sink
  written : Nat
  srcName : String
  destName : String
  deriving DecidableEq, Repr

/-- Where the handler stands in the tunnel: before the first `go`, before the
second, in `wg.Wait()`, or returned. -/
inductive MainPc
  | go1
  | go2
  | waiting
  | returned
  deriving DecidableEq, Repr

/-- The state of a tunnel. -/
structure Tunnel where
  mainPc : MainPc
  wg : Int
  up : Transfer
  down : Transfer
  trace : List Event
  deriving DecidableEq, Repr

/-- The transfer of a direction. -/
def Tunnel.get (s : Tunnel) : Dir → Transfer
  | Dir.up => s.up
  | Dir.down => s.down

/-- Replace the transfer of a direction. -/
def Tunnel.put (s : Tunnel) (d : Dir) (t : Transfer) : Tunnel :=
  match d with
  | Dir.up => { s with up := t }
  | Dir.down => { s with down := t }

/-- One step of a transfer goroutine `transfer(wg, destination, source, destName, srcName)`:
inside `io.Copy` one turn of its loop (a blocked read is no step); then the two
print statements; then the deferred `wg.Done()`. -/
def Tunnel.stepTransfer (s : Tunnel) (d : Dir) : Tunnel :=
  let t := s.get d
  match t.pc with
  | TPc.idle => s
  | TPc.copying =>
    match t.src.chunks with
    | [] =>
      match t.src.final with
      | ReadEnd.eof => s.put d { t with pc := TPc.copied none }
      | ReadEnd.err e => s.put d { t with pc := TPc.copied (some e) }
      | ReadEnd.block => s
    | c :: rest =>
      match copyChunk Sink.Write t.dst c t.written with
      | (dst', written', some e) =>
        s.put d { t with pc := TPc.copied (some e), src := { t.src with chunks := rest },
                         dst := dst', written := written' }
      | (dst', written', none) =>
        s.put d { t with src := { t.src with chunks := rest }, dst := dst', written := written' }
  | TPc.copied err =>
    let printed : List Event :=
      match err with
      | some e => [Event.log (LogLine.transferError t.srcName t.destName e)]
      | none => []
    let s1 := s.put d { t with pc := TPc.exiting }
    { s1 with trace := s.trace ++ printed ++
        [Event.log (LogLine.copied t.written t.srcName t.destName)] }
  | TPc.exiting =>
    let s1 := s.put d { t with pc := TPc.finished }
    { s1 with wg := s.wg - 1, trace := s.trace ++ [Event.wgDone d] }
  | TPc.finished => s

/-- One step of the handler inside the tunnel: the two `go` statements, then
`wg.Wait()`, which returns only when the counter is zero; after it the handler
returns and its deferred calls run, last deferred first:
`src_conn.Close()`, then `dest_conn.Close()`. -/
def Tunnel.stepMain (s : Tunnel) : Tunnel :=
  match s.mainPc with
  | MainPc.go1 =>
    { s with mainPc := MainPc.go2, up := { s.up with pc := TPc.copying },
             trace := s.trace ++ [Event.spawn Dir.up] }
  | MainPc.go2 =>
    { s with mainPc := MainPc.waiting, down := { s.down with pc := TPc.copying },
             trace := s.trace ++ [Event.spawn Dir.down] }
  | MainPc.waiting =>
    if s.wg = 0 then
      { s with mainPc := MainPc.returned,
               trace := s.trace ++ [Event.wgWait, Event.closeSrc, Event.closeDest] }
    else s
  | MainPc.returned => s

/-- One step of the thread the scheduler picks. -/
def Tunnel.step (s : Tunnel) : Tid → Tunnel
  | Tid.main => s.stepMain
  | Tid.transfer d => s.stepTransfer d

/-- The tunnel after the scheduler's choices, one after the other. -/
def Tunnel.run (s : Tunnel) (schedule : List Tid) : Tunnel :=
  schedule.foldl Tunnel.step s

/-- The text `fmt.Sprintf("%s->%s", c.LocalAddr().String(), c.RemoteAddr().String())`. -/
def connStr (c : Conn) : String := c.localAddr ++ "->" ++ c.remoteAddr

/-- The tunnel right after `wg.Add(2)`: both goroutines still to be started. -/
def Tunnel.start (src dest : Conn) (trace : List Event) : Tunnel :=
  { mainPc := MainPc.go1, wg := 2,
    up := { pc := TPc.idle, src := src.incoming, dst := dest.outgoing, written := 0,
            srcName := connStr src, destName := connStr dest },
    down := { pc := TPc.idle, src := dest.incoming, dst := src.outgoing, written := 0,
              srcName := connStr dest, destName := connStr src },
    trace := trace }

/-! ## The handlers -/

/-- What a handler run leaves behind: the response writer, the trace of its
effects, whether the handler returned (a blocked stream or a schedule that
ends early leaves it running), the value of `written` once `io.Copy` has
returned in `handleHTTP`, and the tunnel, when one was established. -/
structure Outcome where
  w : ResponseWriter
  trace : List Event
  returned : Bool
  written : Option Nat
  tunnel : Option Tunnel
  deriving DecidableEq, Repr

/-- The outbound request after the header copy loop:
`http.NewRequest(r.Method, r.URL.String(), r.Body)` starts with an empty header
map, and the loop adds every value of every inbound name. -/
def outboundRequest (r : Request) : Outbound :=
  { method := r.method, url := r.url, header := copyHeaders r.header [], body := r.body }

/-- The handler `handleHTTP`. -/
def handleHTTP (env : Env) (w : ResponseWriter) (r : Request) : Outcome :=
  match env.newRequest r.method r.url with
  | some e =>
    { w := w.WriteHeader 500,
      trace := [Event.newRequest r.method r.url, Event.log (LogLine.newRequestError r.url e)],
      returned := true, written := none, tunnel := none }
  | none =>
    let req := outboundRequest r
    match env.roundTrip req with
    | Except.error e =>
      { w := w.WriteHeader 500,
        trace := [Event.newRequest r.method r.url, Event.clientDo req,
                  Event.log (LogLine.doError r.url e)],
        returned := true, written := none, tunnel := none }
    | Except.ok resp =>
      match ioCopy ResponseWriter.Write w resp.body with
      | (w1, _, CopyEnd.blocked) =>
        { w := w1, trace := [Event.newRequest r.method r.url, Event.clientDo req],
          returned := false, written := none, tunnel := none }
      | (w1, written, CopyEnd.failed e) =>
        { w := w1.WriteHeader 500,
          trace := [Event.newRequest r.method r.url, Event.clientDo req,
                    Event.log (LogLine.copyError r.url e), Event.closeBody],
          returned := true, written := some written, tunnel := none }
      | (w1, written, CopyEnd.ok) =>
        { w := w1,
          trace := [Event.newRequest r.method r.url, Event.clientDo req,
                    Event.log (LogLine.relayed r.proto r.method r.host resp.statusCode
                      (written / 1000)),
                    Event.closeBody],
          returned := true, written := some written, tunnel := none }

/-- The handler `handleTunnel`. -/
def handleTunnel (env : Env) (w : ResponseWriter) (r : Request) : Outcome :=
  match env.dial r.host with
  | Except.error e =>
    { w := httpError w e 503, trace := [Event.dial "tcp" r.host 10],
      returned := true, written := none, tunnel := none }
  | Except.ok dest =>
    let w1 := w.WriteHeader 200
    match w1.hijack with
    | HijackCap.unsupported =>
      { w := httpError w1 "webserver doesn\x27t support hijacking" 500,
        trace := [Event.dial "tcp" r.host 10, Event.closeDest],
        returned := true, written := none, tunnel := none }
    | HijackCap.fails e =>
      { w := httpError w1 e 500,
        trace := [Event.dial "tcp" r.host 10, Event.hijack false, Event.closeDest],
        returned := true, written := none, tunnel := none }
    | HijackCap.ok src =>
      let t := (Tunnel.start src dest
        [Event.dial "tcp" r.host 10, Event.hijack true,
         Event.log (LogLine.tunnel r.proto r.method r.host),
         Event.log (LogLine.conns (connStr src) (connStr dest)),
         Event.wgAdd 2]).run env.schedule
      { w := { w1 with hijacked := true }, trace := t.trace,
        returned := decide (t.mainPc = MainPc.returned), written := none, tunnel := some t }

/-- The handler `healthCheck`: `log.Println("health check"); fmt.Fprintf(w, "OK")`. -/
def healthCheck (w : ResponseWriter) (_r : Request) : Outcome :=
  { w := (w.Write (bytesOf "OK")).1, trace := [Event.log LogLine.healthCheck],
    returned := true, written := none, tunnel := none }

/-- Record the call of a handler in front of what the handler did. -/
def Outcome.called (o : Outcome) (h : HandlerName) : Outcome :=
  { o with trace := Event.call h :: o.trace }

/-- The handler function that `main` passes to `http.ListenAndServe`. -/
def dispatch (env : Env) (w : ResponseWriter) (r : Request) : Outcome :=
  if r.method = "CONNECT" then
    (handleTunnel env w r).called HandlerName.handleTunnel
  else
    if r.path = "/health" then
      (healthCheck w r).called HandlerName.healthCheck
    else
      (handleHTTP env w r).called HandlerName.handleHTTP

/-- The response writer the server hands to the handler for the request `r`:
it answers a `HEAD` request exactly when the method of `r` is `HEAD`. -/
def ResponseWriter.bind (w : ResponseWriter) (r : Request) : ResponseWriter :=
  { w with head := decide (r.method = "HEAD") }

/-- One request as the server runs it: the response writer is bound to the
request, the handler function of `main` runs, and the server's
`finishRequest` follows once it has returned. -/
def serve (env : Env) (w : ResponseWriter) (r : Request) : Outcome :=
  let o := dispatch env (w.bind r) r
  if o.returned then { o with w := finishRequest o.w } else o

/-- The handlers called in a trace, in order. -/
def calls : List Event → List HandlerName
  | [] => []
  | Event.call h :: rest => h :: calls rest
  | _ :: rest => calls rest

/-! ## Sample worlds -/

/-- A plain `GET` request for `http://example.org/a`. -/
def sampleRequest : Request :=
  { method := "GET", proto := "HTTP/1.1", host := "example.org",
    url := "http://example.org/a", path := "/a",
    header := [("Accept", ["text/html", ""]), ("X-Trace-Id", ["7", "7"])],
    body := { chunks := [], final := ReadEnd.eof } }

/-- A world in which every dial is refused and the outbound call returns
`resp`. -/
def worldWith (resp : Response) : Env :=
  { newRequest := fun _ _ => none
    roundTrip := fun _ => Except.ok resp
    dial := fun _ => Except.error "dial tcp: connect: connection refused"
    schedule := [] }

/-- An upstream answer `404` with one header and the body `nf`. -/
def notFound : Response :=
  { statusCode := 404, header := [("X-Upstream", ["u1"])],
    body := { chunks := [[110, 102]], final := ReadEnd.eof } }

/-- An upstream answer `200` whose body is `ok`. -/
def found : Response :=
  { statusCode := 200, header := [],
    body := { chunks := [[111, 107]], final := ReadEnd.eof } }

/-- An upstream answer `200` with an empty body. -/
def emptyBody : Response :=
  { statusCode := 200, header := [],
    body := { chunks := [], final := ReadEnd.eof } }

/-- An upstream answer `200` whose body breaks before its first octet. -/
def resetAtStart : Response :=
  { statusCode := 200, header := [],
    body := { chunks := [], final := ReadEnd.err "read: connection reset by peer" } }

/-- An upstream answer `200` whose body breaks after two octets. -/
def resetMidway : Response :=
  { statusCode := 200, header := [],
    body := { chunks := [[111, 107]], final := ReadEnd.err "read: connection reset by peer" } }

/-- A fresh response writer on a connection that accepts everything and can
be hijacked. -/
def sampleWriter : ResponseWriter :=
  ResponseWriter.fresh none "write: broken pipe"
    (HijackCap.ok { localAddr := "10.0.0.1:8888", remoteAddr := "10.0.0.2:40000",
                    incoming := { chunks := [[1, 2], [3]], final := ReadEnd.eof },
                    outgoing := { got := [], room := none, failMsg := "write: broken pipe" } })

/-- A world in which the dial reaches a destination that sends three octets
and then closes, with a scheduler that lets the destination side finish
first. -/
def openWorld : Env :=
  { newRequest := fun _ _ => none
    roundTrip := fun _ => Except.error "unused"
    dial := fun _ => Except.ok
      { localAddr := "10.0.0.1:50000", remoteAddr := "93.184.216.34:443",
        incoming := { chunks := [[7, 8, 9]], final := ReadEnd.eof },
        outgoing := { got := [], room := some 2, failMsg := "write: broken pipe" } }
    schedule := [Tid.main, Tid.transfer Dir.up, Tid.main, Tid.transfer Dir.down,
      Tid.transfer Dir.down, Tid.main, Tid.transfer Dir.down, Tid.transfer Dir.down,
      Tid.transfer Dir.up, Tid.main, Tid.transfer Dir.up, Tid.transfer Dir.up,
      Tid.transfer Dir.up, Tid.main] }

/-- A `CONNECT` request for `example.org:443`. -/
def connectRequest : Request :=
  { method := "CONNECT", proto := "HTTP/1.1", host := "example.org:443",
    url := "//example.org:443", path := "",
    header := [], body := { chunks := [], final := ReadEnd.eof } }

/-- A fresh response writer that is no `http.Hijacker`. -/
def plainWriter : ResponseWriter :=
  ResponseWriter.fresh none "write: broken pipe" HijackCap.unsupported

/-- A fresh response writer whose `Hijack()` fails. -/
def failingHijackWriter : ResponseWriter :=
  ResponseWriter.fresh none "write: broken pipe"
    (HijackCap.fails "unexpected Peek failure reading buffered byte: EOF")

/-! ## What the tunnel keeps true -/

/-- The goroutines started in a trace, in order. -/
def spawns : List Event → List Dir
  | [] => []
  | Event.spawn d :: rest => d :: spawns rest
  | _ :: rest => spawns rest

/-- What a transfer still owes the wait group. -/
def Transfer.pending (t : Transfer) : Int := if t.pc = TPc.finished then 0 else 1

/-- A transfer that started from the source `R` and the destination `S` is at
a point of the run of `io.Copy(S, R)`: not yet started; inside the loop, with
the rest of the loop giving the result of the whole copy; or after it, holding
that result. -/
def copyInv (R : Reader) (S : Sink) (t : Transfer) : Prop :=
  match t.pc with
  | TPc.idle => t.src = R ∧ t.dst = S ∧ t.written = 0
  | TPc.copying =>
    ioCopyLoop Sink.Write t.src.final t.src.chunks t.dst t.written = ioCopy Sink.Write S R
  | TPc.copied err =>
    ioCopy Sink.Write S R =
      (t.dst, t.written, match err with
        | none => CopyEnd.ok
        | some e => CopyEnd.failed e)
  | TPc.exiting =>
    (ioCopy Sink.Write S R).1 = t.dst ∧ (ioCopy Sink.Write S R).2.1 = t.written ∧
      (ioCopy Sink.Write S R).2.2 ≠ CopyEnd.blocked
  | TPc.finished =>
    (ioCopy Sink.Write S R).1 = t.dst ∧ (ioCopy Sink.Write S R).2.1 = t.written ∧
      (ioCopy Sink.Write S R).2.2 ≠ CopyEnd.blocked

/-- The invariant of a tunnel between the client connection `src` and the
destination connection `dest`. -/
structure TunnelInv (src dest : Conn) (s : Tunnel) : Prop where
  wg_eq : s.wg = s.up.pending + s.down.pending
  idle_up : s.up.pc = TPc.idle ↔ s.mainPc = MainPc.go1
  idle_down : s.down.pc = TPc.idle ↔ (s.mainPc = MainPc.go1 ∨ s.mainPc = MainPc.go2)
  spawned : spawns s.trace =
    match s.mainPc with
    | MainPc.go1 => []
    | MainPc.go2 => [Dir.up]
    | _ => [Dir.up, Dir.down]
  done_up : s.trace.count (Event.wgDone Dir.up) = if s.up.pc = TPc.finished then 1 else 0
  done_down : s.trace.count (Event.wgDone Dir.down) = if s.down.pc = TPc.finished then 1 else 0
  close_src : s.trace.count Event.closeSrc = if s.mainPc = MainPc.returned then 1 else 0
  close_dest : s.trace.count Event.closeDest = if s.mainPc = MainPc.returned then 1 else 0
  at_return : s.mainPc = MainPc.returned →
    s.up.pc = TPc.finished ∧ s.down.pc = TPc.finished ∧
    ∃ pre, s.trace = pre ++ [Event.wgWait, Event.closeSrc, Event.closeDest] ∧
      Event.wgDone Dir.up ∈ pre ∧ Event.wgDone Dir.down ∈ pre
  copy_up : copyInv src.incoming dest.outgoing s.up
  copy_down : copyInv dest.incoming src.outgoing s.down
  no_call : calls s.trace = []

/-- How many steps a transfer needs at most to end, when its source does not
block. -/
def Transfer.stepsLeft (t : Transfer) : Nat :=
  match t.pc with
  | TPc.idle => t.src.chunks.length + 3
  | TPc.copying => t.src.chunks.length + 3
  | TPc.copied _ => 2
  | TPc.exiting => 1
  | TPc.finished => 0

/-- How far the handler is in the tunnel. -/
def MainPc.rank : MainPc → Nat
  | MainPc.go1 => 0
  | MainPc.go2 => 1
  | MainPc.waiting => 2
  | MainPc.returned => 3

/-- The stream a transfer reads: the client connection for `up`, the
destination connection for `down`. -/
def Dir.source (d : Dir) (src dest : Conn) : Reader :=
  match d with
  | Dir.up => src.incoming
  | Dir.down => dest.incoming

/-- The write side a transfer writes to: the destination connection for `up`,
the client connection for `down`. -/
def Dir.sink (d : Dir) (src dest : Conn) : Sink :=
  match d with
  | Dir.up => dest.outgoing
  | Dir.down => src.outgoing

/-- A schedule that starts both transfers, lets each take `n` steps, and
then lets the handler look at the wait group. -/
def joinSchedule (n : Nat) : List Tid :=
  [Tid.main, Tid.main] ++ List.replicate n (Tid.transfer Dir.up) ++
    List.replicate n (Tid.transfer Dir.down) ++ [Tid.main]


/-! ## Header maps: lookup after store, and the copy loop -/

theorem Header.find_store (h : Header) (k : String) (vs : List String) (k' : String) :
    Header.find (Header.store h k vs) k' = if k = k' then some vs else Header.find h k' := by
  induction h with
  | nil => simp [Header.store, Header.find]
  | cons kv rest ih =>
    obtain ⟨k0, vs0⟩ := kv
    by_cases h0 : k0 = k
    · subst h0
      by_cases h1 : k0 = k' <;> simp [Header.store, Header.find, h1]
    · by_cases h1 : k0 = k'
      · subst h1
        have : ¬ k = k0 := fun e => h0 e.symm
        simp [Header.store, Header.find, h0, this]
      · simp [Header.store, Header.find, h0, h1, ih]

theorem Header.find_eq_none_of_not_mem (h : Header) (k : String)
    (hk : k ∉ Header.names h) : Header.find h k = none := by
  induction h with
  | nil => rfl
  | cons kv rest ih =>
    obtain ⟨k0, vs0⟩ := kv
    simp only [Header.names, List.map_cons, List.mem_cons, not_or] at hk
    have h0 : ¬ k0 = k := fun e => hk.1 e.symm
    simp only [Header.find, h0, if_false]
    exact ih hk.2

theorem Header.mem_names_iff_find (h : Header) (k : String) :
    k ∈ Header.names h ↔ (Header.find h k).isSome = true := by
  induction h with
  | nil => simp [Header.names, Header.find]
  | cons kv rest ih =>
    obtain ⟨k0, vs0⟩ := kv
    by_cases h0 : k0 = k
    · subst h0; simp [Header.names, Header.find]
    · have h1 : ¬ k = k0 := fun e => h0 e.symm
      simp only [Header.names, List.map_cons, List.mem_cons, h1, false_or, Header.find, h0,
        if_false]
      exact ih

theorem addValues_find (k : String) (hk : CanonicalMIMEHeaderKey k = k) :
    ∀ (vs : List String) (dst : Header) (k' : String),
      Header.find (addValues dst k vs) k' =
        if vs = [] then Header.find dst k'
        else if k = k' then some (Header.Values dst k ++ vs) else Header.find dst k' := by
  intro vs
  induction vs with
  | nil => intro dst k'; simp [addValues]
  | cons v vs ih =>
    intro dst k'
    have hstep : addValues dst k (v :: vs) = addValues (Header.Add dst k v) k vs := by
      simp [addValues]
    rw [hstep, ih]
    have hval : Header.Values (Header.Add dst k v) k = Header.Values dst k ++ [v] := by
      simp [Header.Values, Header.Add, hk, Header.find_store]
    by_cases hvs : vs = []
    · subst hvs
      simp [Header.Add, hk, Header.find_store]
    · by_cases hkk : k = k'
      · simp [hvs, hkk.symm, hval]
      · simp [hvs, hkk, Header.Add, hk, Header.find_store]

theorem copyHeaders_find :
    ∀ (src dst : Header),
      (∀ kv ∈ src, CanonicalMIMEHeaderKey kv.1 = kv.1) →
      Header.WF src →
      (∀ k ∈ Header.names src, Header.find dst k = none) →
      ∀ k, Header.find (copyHeaders src dst) k =
        match Header.find src k with
        | some vs => if vs = [] then none else some vs
        | none => Header.find dst k := by
  intro src
  induction src with
  | nil => intro dst _ _ _ k; simp [copyHeaders, Header.find]
  | cons kv rest ih =>
    obtain ⟨k0, vs0⟩ := kv
    intro dst hcanon hwf hdst k
    have hk0 : CanonicalMIMEHeaderKey k0 = k0 := hcanon (k0, vs0) (List.mem_cons_self _ _)
    have hwf' : k0 ∉ Header.names rest ∧ Header.WF rest := by
      simpa [Header.WF, Header.names] using hwf
    have hstep : copyHeaders ((k0, vs0) :: rest) dst = copyHeaders rest (addValues dst k0 vs0) := by
      simp [copyHeaders]
    have hd0 : Header.find dst k0 = none := hdst k0 (by simp [Header.names])
    rw [hstep, ih (addValues dst k0 vs0) (fun kv h => hcanon kv (List.mem_cons_of_mem _ h)) hwf'.2
      (by
        intro k' hk'
        have hne : ¬ k0 = k' := fun e => hwf'.1 (e ▸ hk')
        rw [addValues_find k0 hk0]
        have := hdst k' (by simp only [Header.names, List.map_cons, List.mem_cons]; exact Or.inr hk')
        simp [hne, this])]
    by_cases hkk : k0 = k
    · subst hkk
      rw [Header.find_eq_none_of_not_mem rest k0 hwf'.1, addValues_find k0 hk0]
      simp [Header.find, Header.Values, hd0]
    · rw [addValues_find k0 hk0]
      simp only [Header.find, hkk, if_false]
      cases Header.find rest k with
      | none => simp
      | some vs => simp


theorem Header.store_append_new (dst : Header) (k : String) (vs : List String)
    (hk : k ∉ Header.names dst) : Header.store dst k vs = dst ++ [(k, vs)] := by
  induction dst with
  | nil => rfl
  | cons kv rest ih =>
    obtain ⟨k0, vs0⟩ := kv
    simp only [Header.names, List.map_cons, List.mem_cons, not_or] at hk
    have h0 : ¬ k0 = k := fun e => hk.1 e.symm
    simp only [Header.store, h0, if_false, List.cons_append]
    rw [ih hk.2]

theorem Header.store_append_last (dst : Header) (k : String) (ws vs : List String)
    (hk : k ∉ Header.names dst) :
    Header.store (dst ++ [(k, ws)]) k vs = dst ++ [(k, vs)] := by
  induction dst with
  | nil => simp [Header.store]
  | cons kv rest ih =>
    obtain ⟨k0, vs0⟩ := kv
    simp only [Header.names, List.map_cons, List.mem_cons, not_or] at hk
    have h0 : ¬ k0 = k := fun e => hk.1 e.symm
    simp only [List.cons_append, Header.store, h0, if_false]
    exact congrArg (fun l => (k0, vs0) :: l) (ih hk.2)

theorem Header.find_append_last (dst : Header) (k : String) (ws : List String)
    (hk : k ∉ Header.names dst) : Header.find (dst ++ [(k, ws)]) k = some ws := by
  induction dst with
  | nil => simp [Header.find]
  | cons kv rest ih =>
    obtain ⟨k0, vs0⟩ := kv
    simp only [Header.names, List.map_cons, List.mem_cons, not_or] at hk
    have h0 : ¬ k0 = k := fun e => hk.1 e.symm
    simp only [List.cons_append, Header.find, h0, if_false]
    exact ih hk.2

theorem addValues_append_last (k : String) (hk : CanonicalMIMEHeaderKey k = k) (dst : Header)
    (hnew : k ∉ Header.names dst) :
    ∀ (vs ws : List String), addValues (dst ++ [(k, ws)]) k vs = dst ++ [(k, ws ++ vs)] := by
  intro vs
  induction vs with
  | nil => intro ws; simp [addValues]
  | cons v vs ih =>
    intro ws
    have hstep : addValues (dst ++ [(k, ws)]) k (v :: vs) =
        addValues (Header.Add (dst ++ [(k, ws)]) k v) k vs := by
      simp [addValues]
    have hadd : Header.Add (dst ++ [(k, ws)]) k v = dst ++ [(k, ws ++ [v])] := by
      simp only [Header.Add, hk, Header.Values, Header.find_append_last dst k ws hnew,
        Option.getD_some]
      exact Header.store_append_last dst k ws (ws ++ [v]) hnew
    rw [hstep, hadd, ih]
    simp

theorem addValues_new (k : String) (hk : CanonicalMIMEHeaderKey k = k) (dst : Header)
    (hnew : k ∉ Header.names dst) (vs : List String) (hvs : vs ≠ []) :
    addValues dst k vs = dst ++ [(k, vs)] := by
  cases vs with
  | nil => exact absurd rfl hvs
  | cons v vs =>
    have hstep : addValues dst k (v :: vs) = addValues (Header.Add dst k v) k vs := by
      simp [addValues]
    have hadd : Header.Add dst k v = dst ++ [(k, [v])] := by
      simp only [Header.Add, hk, Header.Values, Header.find_eq_none_of_not_mem dst k hnew,
        Option.getD_none, List.nil_append]
      exact Header.store_append_new dst k [v] hnew
    rw [hstep, hadd, addValues_append_last k hk dst hnew]
    simp

theorem copyHeaders_append :
    ∀ (src dst : Header), Header.Delivered src → Header.WF (dst ++ src) →
      copyHeaders src dst = dst ++ src := by
  intro src
  induction src with
  | nil => intro dst _ _; simp [copyHeaders]
  | cons kv rest ih =>
    obtain ⟨k0, vs0⟩ := kv
    intro dst hd hwf
    have h0 := hd (k0, vs0) (List.mem_cons_self _ _)
    have hnew : k0 ∉ Header.names dst := by
      intro hmem
      have hwf' : (Header.names dst ++ k0 :: Header.names rest).Nodup := by
        simpa [Header.WF, Header.names] using hwf
      have := List.disjoint_of_nodup_append hwf' hmem
      exact this (List.mem_cons_self _ _)
    have hstep : copyHeaders ((k0, vs0) :: rest) dst = copyHeaders rest (addValues dst k0 vs0) := by
      simp [copyHeaders]
    rw [hstep, addValues_new k0 h0.1 dst hnew vs0 h0.2,
      ih (dst ++ [(k0, vs0)]) (fun kv h => hd kv (List.mem_cons_of_mem _ h))
        (by simpa [List.append_assoc] using hwf)]
    simp

/-- The copy loop started on the empty map of a new request rebuilds the
delivered map entry for entry. -/
theorem copyHeaders_delivered (src : Header) (hwf : Header.WF src)
    (hd : Header.Delivered src) : copyHeaders src [] = src := by
  have := copyHeaders_append src [] hd (by simpa using hwf)
  simpa using this

/-- For any well-formed map with canonical names, also one with a name that has
no value, the copy has the same values under every name (`h[k]` gives `nil`
for an absent name as for a name without values). -/
theorem copyHeaders_values (src : Header) (hwf : Header.WF src)
    (hc : ∀ kv ∈ src, CanonicalMIMEHeaderKey kv.1 = kv.1) (k : String) :
    Header.Values (copyHeaders src []) k = Header.Values src k := by
  have h := copyHeaders_find src [] hc hwf (fun _ _ => rfl) k
  simp only [Header.Values, h]
  cases hf : Header.find src k with
  | none => simp [Header.find]
  | some vs => by_cases hv : vs = [] <;> simp [hv]

/-- The request `handleHTTP` hands to `http.DefaultClient.Do` is the outbound
request as the copy loop left it. -/
theorem handleHTTP_sends_outbound (env : Env) (w : ResponseWriter) (r : Request)
    (hnew : env.newRequest r.method r.url = none) :
    Event.clientDo (outboundRequest r) ∈ (handleHTTP env w r).trace := by
  unfold handleHTTP
  rw [hnew]
  simp only
  cases env.roundTrip (outboundRequest r) with
  | error e => simp
  | ok resp =>
    simp only
    rcases ioCopy ResponseWriter.Write w resp.body with ⟨w1, n, e⟩
    cases e <;> simp

/-- C2. After the header copy loop of `handleHTTP`, for every inbound header
map as the HTTP server delivers it (no name twice, names canonical, at least
one value under each name), the outbound request has exactly the same names
and under every name the same values in the same order: the lookup of any
name gives the same result in both maps, values that repeat or are empty
included. -/
theorem handleHTTP_copies_headers (r : Request) (hwf : Header.WF r.header)
    (hd : Header.Delivered r.header) :
    (∀ k, Header.find (outboundRequest r).header k = Header.find r.header k) ∧
    (∀ k, k ∈ Header.names (outboundRequest r).header ↔ k ∈ Header.names r.header) ∧
    Header.WF (outboundRequest r).header := by
  have h : (outboundRequest r).header = r.header := copyHeaders_delivered r.header hwf hd
  rw [h]
  exact ⟨fun _ => rfl, fun _ => Iff.rfl, hwf⟩

/-- C2, at a map with a repeated value and an empty value. -/
theorem handleHTTP_copies_headers_witness :
    Header.find (outboundRequest
      { method := "GET", proto := "HTTP/1.1", host := "example.org",
        url := "http://example.org/", path := "/",
        header := [("Accept", ["a", "", "a"]), ("X-Trace-Id", [""])],
        body := { chunks := [], final := ReadEnd.eof } }).header "Accept"
      = some ["a", "", "a"] :=
  ((handleHTTP_copies_headers
      { method := "GET", proto := "HTTP/1.1", host := "example.org",
        url := "http://example.org/", path := "/",
        header := [("Accept", ["a", "", "a"]), ("X-Trace-Id", [""])],
        body := { chunks := [], final := ReadEnd.eof } }
      (by decide) (by decide)).1 "Accept").trans (by decide)


/-! ## `io.Copy` -/

theorem copyChunk_nil {σ : Type} (write : σ → Bytes → σ × Nat × Option String)
    (dst : σ) (n : Nat) : copyChunk write dst [] n = (dst, n, none) := by
  simp [copyChunk]

theorem copyChunk_fst {σ : Type} (write : σ → Bytes → σ × Nat × Option String)
    (dst : σ) (c : Bytes) (n : Nat) (hc : c ≠ []) :
    (copyChunk write dst c n).1 = (write dst c).1 := by
  have hpos : 0 < c.length := List.length_pos.mpr hc
  simp only [copyChunk, hpos, if_true]
  split
  · rfl
  · split
    · split <;> rfl
    · split <;> rfl

theorem copyChunk_none {σ : Type} (write : σ → Bytes → σ × Nat × Option String)
    (dst : σ) (c : Bytes) (n : Nat) (hc : c ≠ [])
    (h : (copyChunk write dst c n).2.2 = none) :
    (write dst c).2.2 = none ∧ (write dst c).2.1 = c.length ∧
      (copyChunk write dst c n).2.1 = n + c.length := by
  have hpos : 0 < c.length := List.length_pos.mpr hc
  simp only [copyChunk, hpos, if_true] at h ⊢
  by_cases hbad : c.length < (write dst c).2.1
  · simp [hbad] at h
  · simp only [hbad, decide_False, Bool.false_eq_true, if_false] at h ⊢
    cases hew : (write dst c).2.2 with
    | some e => simp [hew] at h
    | none =>
      simp only [hew] at h ⊢
      by_cases hn : (write dst c).2.1 = c.length
      · simp [hn]
      · simp [hn] at h

theorem ioCopyLoop_cons {σ : Type} (write : σ → Bytes → σ × Nat × Option String)
    (final : ReadEnd) (c : Bytes) (rest : List Bytes) (dst : σ) (n : Nat) :
    ioCopyLoop write final (c :: rest) dst n =
      match (copyChunk write dst c n).2.2 with
      | some e => ((copyChunk write dst c n).1, (copyChunk write dst c n).2.1, CopyEnd.failed e)
      | none => ioCopyLoop write final rest (copyChunk write dst c n).1
          (copyChunk write dst c n).2.1 := by
  rcases hcc : copyChunk write dst c n with ⟨d, m, e⟩
  cases e <;> simp [ioCopyLoop, hcc]

theorem ioCopyLoop_ok {σ : Type} (write : σ → Bytes → σ × Nat × Option String)
    (got : σ → Bytes)
    (hw : ∀ s p, (write s p).2.2 = none → (write s p).2.1 = p.length →
      got (write s p).1 = got s ++ p)
    (final : ReadEnd) :
    ∀ (chunks : List Bytes) (dst : σ) (n : Nat),
      (ioCopyLoop write final chunks dst n).2.2 = CopyEnd.ok →
      final = ReadEnd.eof ∧
      got (ioCopyLoop write final chunks dst n).1 = got dst ++ chunks.flatten ∧
      (ioCopyLoop write final chunks dst n).2.1 = n + chunks.flatten.length := by
  intro chunks
  induction chunks with
  | nil =>
    intro dst n h
    cases final <;> simp [ioCopyLoop] at h ⊢
  | cons c rest ih =>
    intro dst n h
    by_cases hc : c = []
    · subst hc
      rw [ioCopyLoop_cons, copyChunk_nil] at h ⊢
      simpa using ih dst n h
    · rw [ioCopyLoop_cons] at h ⊢
      cases he : (copyChunk write dst c n).2.2 with
      | some e => simp [he] at h
      | none =>
        simp only [he] at h ⊢
        obtain ⟨h1, h2, h3⟩ := copyChunk_none write dst c n hc he
        obtain ⟨i1, i2, i3⟩ := ih _ _ h
        refine ⟨i1, ?_, ?_⟩
        · rw [i2, copyChunk_fst write dst c n hc, hw dst c h1 h2]
          simp
        · rw [i3, h3]
          simp [Nat.add_assoc]

/-! ## The response writer under `io.Copy` -/

theorem ResponseWriter.Write_got (w : ResponseWriter) (p : Bytes)
    (h1 : (w.Write p).2.2 = none) (_h2 : (w.Write p).2.1 = p.length) :
    (w.Write p).1.body.got = w.body.got ++ p := by
  unfold ResponseWriter.Write at h1 ⊢
  by_cases hh : w.hijacked = true
  · simp [hh] at h1
  · simp only [hh, Bool.false_eq_true, if_false] at h1 ⊢
    have hb : (w.WriteHeader 200).body = w.body := by
      unfold ResponseWriter.WriteHeader
      simp only [hh, Bool.false_eq_true, if_false]
      cases w.status <;> rfl
    by_cases hhead : (w.WriteHeader 200).head = true
    · simp [hhead, hb]
    · simp only [hhead, Bool.false_eq_true, if_false] at h1 ⊢
      rw [hb] at h1 ⊢
      unfold Sink.Write at h1 ⊢
      cases hr : w.body.room with
      | none => simp
      | some n =>
        simp only [hr] at h1 ⊢
        by_cases hn : p.length ≤ n
        · simp [hn]
        · simp [hn] at h1

/-- What one `Write` leaves of the response writer beside the body. -/
theorem ResponseWriter.Write_frame (w : ResponseWriter) (p : Bytes) :
    (w.Write p).1.header = w.header ∧ (w.Write p).1.hijacked = w.hijacked ∧
    (w.Write p).1.hijack = w.hijack ∧
    (w.Write p).1.status = (if w.hijacked then w.status else some (w.status.getD 200)) ∧
    (w.Write p).1.sentHeader =
      (if w.hijacked then w.sentHeader
       else match w.status with
        | some _ => w.sentHeader
        | none => w.header) := by
  obtain ⟨hd, st, sh, b, hea, sn, hj, hjd⟩ := w
  cases hjd <;> cases st <;> cases hea <;>
    simp [ResponseWriter.Write, ResponseWriter.WriteHeader]

/-- A `Write` keeps the `HEAD` mark of the response writer; in answer to a
`HEAD` request it sends nothing, and otherwise it sends what the connection
takes, which is what it adds to the body. -/
theorem ResponseWriter.Write_sent (w : ResponseWriter) (p : Bytes) :
    (w.Write p).1.head = w.head ∧
    (w.head = true → (w.Write p).1.sent = w.sent) ∧
    (w.head = false → w.sent = w.body.got → (w.Write p).1.sent = (w.Write p).1.body.got) := by
  obtain ⟨hd, st, sh, b, hea, sn, hj, hjd⟩ := w
  obtain ⟨got, room, fm⟩ := b
  cases hjd <;> cases st <;> cases hea <;> cases room <;>
    simp [ResponseWriter.Write, ResponseWriter.WriteHeader, Sink.Write] <;>
    (intro h; subst h; split <;> simp)


/-- A source that yields no octet leaves the writer untouched: the copy ends
as the source ends. -/
theorem ioCopyLoop_empty {σ : Type} (write : σ → Bytes → σ × Nat × Option String)
    (final : ReadEnd) :
    ∀ (chunks : List Bytes) (dst : σ) (n : Nat), chunks.flatten = [] →
      ioCopyLoop write final chunks dst n =
        (dst, n, match final with
          | ReadEnd.eof => CopyEnd.ok
          | ReadEnd.err e => CopyEnd.failed e
          | ReadEnd.block => CopyEnd.blocked) := by
  intro chunks
  induction chunks with
  | nil => intro dst n _; cases final <;> rfl
  | cons c rest ih =>
    intro dst n h
    have hc : c = [] := by
      cases c with
      | nil => rfl
      | cons a l => simp at h
    subst hc
    rw [ioCopyLoop_cons, copyChunk_nil]
    exact ih dst n (by simpa using h)

/-- The response writer after `io.Copy` into it: the handler's header map and
the hijack state are as before, and the status is fixed by the first write of
an octet, to 200 when none was set before. -/
theorem ioCopyLoop_writer (final : ReadEnd) :
    ∀ (chunks : List Bytes) (w : ResponseWriter) (n : Nat), w.hijacked = false →
      (ioCopyLoop ResponseWriter.Write final chunks w n).1.header = w.header ∧
      (ioCopyLoop ResponseWriter.Write final chunks w n).1.hijacked = false ∧
      (ioCopyLoop ResponseWriter.Write final chunks w n).1.status =
        (if chunks.flatten = [] then w.status else some (w.status.getD 200)) ∧
      (ioCopyLoop ResponseWriter.Write final chunks w n).1.sentHeader =
        (if chunks.flatten = [] then w.sentHeader
         else match w.status with
          | some _ => w.sentHeader
          | none => w.header) := by
  intro chunks
  induction chunks with
  | nil => intro w n hw; cases final <;> simp [ioCopyLoop, hw]
  | cons c rest ih =>
    intro w n hw
    by_cases hc : c = []
    · subst hc
      rw [ioCopyLoop_cons, copyChunk_nil]
      simpa using ih w n hw
    · have hne : (c :: rest).flatten ≠ [] := by
        cases c with
        | nil => exact absurd rfl hc
        | cons a l => simp
      obtain ⟨f1, f2, _, f4, f5⟩ := ResponseWriter.Write_frame w c
      simp only [hw, Bool.false_eq_true, if_false] at f2 f4 f5
      have hfst := copyChunk_fst ResponseWriter.Write w c n hc
      rw [ioCopyLoop_cons]
      simp only [hne, if_false]
      cases he : (copyChunk ResponseWriter.Write w c n).2.2 with
      | some e =>
        simp only [hfst]
        exact ⟨f1, f2, f4, f5⟩
      | none =>
        simp only [hfst]
        obtain ⟨i1, i2, i3, i4⟩ := ih (w.Write c).1
          (copyChunk ResponseWriter.Write w c n).2.1 f2
        refine ⟨i1.trans f1, i2, ?_, ?_⟩
        · rw [i3, f4]; simp
        · rw [i4, f4, f5, f1]
          by_cases hr : rest.flatten = []
          · simp [hr]
          · simp only [hr, if_false]


/-! ## The plaintext relay -/

theorem serve_relay (env : Env) (w : ResponseWriter) (r : Request)
    (hm : r.method ≠ "CONNECT") (hp : r.path ≠ "/health") :
    serve env w r =
      if (handleHTTP env (w.bind r) r).returned then
        { (handleHTTP env (w.bind r) r).called HandlerName.handleHTTP with
          w := finishRequest (handleHTTP env (w.bind r) r).w }
      else (handleHTTP env (w.bind r) r).called HandlerName.handleHTTP := by
  simp [serve, dispatch, hm, hp, Outcome.called]

/-- A copy into the response writer that returns `nil` has appended the
octets of the source, all of them and in order, and has counted them. -/
theorem ioCopy_ok_result (w : ResponseWriter) (body : Reader)
    (h : (ioCopy ResponseWriter.Write w body).2.2 = CopyEnd.ok) :
    (ioCopy ResponseWriter.Write w body).1.body.got = w.body.got ++ body.data ∧
    (ioCopy ResponseWriter.Write w body).2.1 = body.data.length := by
  obtain ⟨_, h2, h3⟩ := ioCopyLoop_ok ResponseWriter.Write (fun w => w.body.got)
    ResponseWriter.Write_got body.final body.chunks w 0 h
  exact ⟨h2, by simpa [Reader.data] using h3⟩

theorem handleHTTP_ok (env : Env) (w : ResponseWriter) (r : Request) (resp : Response)
    (hnew : env.newRequest r.method r.url = none)
    (hdo : env.roundTrip (outboundRequest r) = Except.ok resp)
    (hcopy : (ioCopy ResponseWriter.Write w resp.body).2.2 = CopyEnd.ok) :
    handleHTTP env w r =
      { w := (ioCopy ResponseWriter.Write w resp.body).1,
        trace := [Event.newRequest r.method r.url, Event.clientDo (outboundRequest r),
                  Event.log (LogLine.relayed r.proto r.method r.host resp.statusCode
                    ((ioCopy ResponseWriter.Write w resp.body).2.1 / 1000)),
                  Event.closeBody],
        returned := true, written := some (ioCopy ResponseWriter.Write w resp.body).2.1,
        tunnel := none } := by
  rcases hc : ioCopy ResponseWriter.Write w resp.body with ⟨w1, n, e⟩
  rw [hc] at hcopy
  simp only at hcopy
  subst hcopy
  simp [handleHTTP, hnew, hdo, hc]

theorem handleHTTP_failed (env : Env) (w : ResponseWriter) (r : Request) (resp : Response)
    (e : String)
    (hnew : env.newRequest r.method r.url = none)
    (hdo : env.roundTrip (outboundRequest r) = Except.ok resp)
    (hcopy : (ioCopy ResponseWriter.Write w resp.body).2.2 = CopyEnd.failed e) :
    handleHTTP env w r =
      { w := (ioCopy ResponseWriter.Write w resp.body).1.WriteHeader 500,
        trace := [Event.newRequest r.method r.url, Event.clientDo (outboundRequest r),
                  Event.log (LogLine.copyError r.url e), Event.closeBody],
        returned := true, written := some (ioCopy ResponseWriter.Write w resp.body).2.1,
        tunnel := none } := by
  rcases hc : ioCopy ResponseWriter.Write w resp.body with ⟨w1, n, e'⟩
  rw [hc] at hcopy
  simp only at hcopy
  subst hcopy
  simp [handleHTTP, hnew, hdo, hc]

/-- Under `io.Copy` the response writer keeps its `HEAD` mark; in answer to a
`HEAD` request nothing is sent, and otherwise what is sent stays what the
handler has written. -/
theorem ioCopyLoop_sent (final : ReadEnd) :
    ∀ (chunks : List Bytes) (w : ResponseWriter) (n : Nat),
      (ioCopyLoop ResponseWriter.Write final chunks w n).1.head = w.head ∧
      (w.head = true → (ioCopyLoop ResponseWriter.Write final chunks w n).1.sent = w.sent) ∧
      (w.head = false → w.sent = w.body.got →
        (ioCopyLoop ResponseWriter.Write final chunks w n).1.sent
          = (ioCopyLoop ResponseWriter.Write final chunks w n).1.body.got) := by
  intro chunks
  induction chunks with
  | nil => intro w n; cases final <;> simp [ioCopyLoop]
  | cons c rest ih =>
    intro w n
    by_cases hc : c = []
    · subst hc
      rw [ioCopyLoop_cons, copyChunk_nil]
      exact ih w n
    · obtain ⟨s1, s2, s3⟩ := ResponseWriter.Write_sent w c
      have hfst := copyChunk_fst ResponseWriter.Write w c n hc
      rw [ioCopyLoop_cons]
      cases he : (copyChunk ResponseWriter.Write w c n).2.2 with
      | some e =>
        simp only [hfst]
        exact ⟨s1, s2, s3⟩
      | none =>
        simp only [hfst]
        obtain ⟨i1, i2, i3⟩ := ih (w.Write c).1 (copyChunk ResponseWriter.Write w c n).2.1
        refine ⟨i1.trans s1, ?_, ?_⟩
        · intro hh
          rw [i2 (s1.trans hh), s2 hh]
        · intro hh hs
          exact i3 (s1.trans hh) (s3 hh hs)

/-- C4. For every upstream response whose body `io.Copy` reads to the end of
the stream without error, the octets `handleHTTP` writes to the client
response are exactly the octets of the upstream body, in order, and the count
`written` it records is the length of the body (the log line shows it in
units of 1000). What the client is sent is what the handler has written, except
in answer to a `HEAD` request, where the server sends no body octet. -/
theorem handleHTTP_streams_body (env : Env) (w : ResponseWriter) (r : Request)
    (resp : Response)
    (hnew : env.newRequest r.method r.url = none)
    (hdo : env.roundTrip (outboundRequest r) = Except.ok resp)
    (hread : (ioCopy ResponseWriter.Write w resp.body).2.2 = CopyEnd.ok) :
    (handleHTTP env w r).w.body.got = w.body.got ++ resp.body.data ∧
    (handleHTTP env w r).written = some resp.body.data.length ∧
    (handleHTTP env w r).returned = true ∧
    Event.log (LogLine.relayed r.proto r.method r.host resp.statusCode
      (resp.body.data.length / 1000)) ∈ (handleHTTP env w r).trace ∧
    (w.head = false → w.sent = w.body.got →
      (handleHTTP env w r).w.sent = w.sent ++ resp.body.data) ∧
    (w.head = true → (handleHTTP env w r).w.sent = w.sent) := by
  obtain ⟨h2, h3⟩ := ioCopy_ok_result w resp.body hread
  obtain ⟨_, s2, s3⟩ := ioCopyLoop_sent resp.body.final resp.body.chunks w 0
  rw [handleHTTP_ok env w r resp hnew hdo hread]
  refine ⟨h2, by simp [h3], rfl, by simp [h3], ?_, ?_⟩
  · intro hh hs
    show (ioCopyLoop ResponseWriter.Write resp.body.final resp.body.chunks w 0).1.sent = _
    rw [s3 hh hs, hs]
    exact h2
  · intro hh
    exact s2 hh

/-- C4, at an upstream body of two chunks. -/
theorem handleHTTP_streams_body_witness :
    (handleHTTP (worldWith { notFound with body := { chunks := [[1, 2], [], [3]], final := ReadEnd.eof } })
      sampleWriter sampleRequest).w.body.got = [] ++ [1, 2, 3] :=
  (handleHTTP_streams_body
    (worldWith { notFound with body := { chunks := [[1, 2], [], [3]], final := ReadEnd.eof } })
    sampleWriter sampleRequest
    { notFound with body := { chunks := [[1, 2], [], [3]], final := ReadEnd.eof } }
    rfl rfl (by decide)).1


/-- The response writer after `io.Copy` into a fresh one, bound to its
request. -/
theorem ioCopy_fresh (room : Option Nat) (msg : String) (hj : HijackCap) (r : Request)
    (body : Reader) :
    (ioCopy ResponseWriter.Write ((ResponseWriter.fresh room msg hj).bind r) body).1.header
      = [] ∧
    (ioCopy ResponseWriter.Write ((ResponseWriter.fresh room msg hj).bind r) body).1.hijacked
      = false ∧
    (ioCopy ResponseWriter.Write ((ResponseWriter.fresh room msg hj).bind r) body).1.status =
      (if body.data = [] then none else some 200) ∧
    (ioCopy ResponseWriter.Write ((ResponseWriter.fresh room msg hj).bind r) body).1.sentHeader
      = [] := by
  obtain ⟨f1, f2, f3, f4⟩ := ioCopyLoop_writer body.final body.chunks
    ((ResponseWriter.fresh room msg hj).bind r) 0 rfl
  refine ⟨f1, f2, ?_, ?_⟩
  · show (ioCopyLoop ResponseWriter.Write body.final body.chunks _ 0).1.status = _
    rw [f3]
    by_cases hd : body.chunks.flatten = [] <;>
      simp [hd, Reader.data, ResponseWriter.fresh, ResponseWriter.bind]
  · show (ioCopyLoop ResponseWriter.Write body.final body.chunks _ 0).1.sentHeader = _
    rw [f4]
    by_cases hd : body.chunks.flatten = [] <;>
      simp [hd, ResponseWriter.fresh, ResponseWriter.bind]

/-- C3, as stated, fails: with the upstream answer `404` and the header
`X-Upstream: u1`, the outbound call succeeds and the body is copied, and the
response sent to the client has status 200 and no header of the upstream
response. -/
theorem relay_status_counterexample :
    (worldWith notFound).roundTrip (outboundRequest sampleRequest) = Except.ok notFound ∧
    (serve (worldWith notFound) sampleWriter sampleRequest).returned = true ∧
    (serve (worldWith notFound) sampleWriter sampleRequest).w.status = some 200 ∧
    (serve (worldWith notFound) sampleWriter sampleRequest).w.status ≠ some notFound.statusCode ∧
    (serve (worldWith notFound) sampleWriter sampleRequest).w.sentHeader = [] ∧
    (serve (worldWith notFound) sampleWriter sampleRequest).w.sentHeader ≠ notFound.header ∧
    (serve (worldWith notFound) sampleWriter sampleRequest).w.body.got = [110, 102] ∧
    (serve (worldWith notFound) sampleWriter sampleRequest).w.sent = [110, 102] := by
  refine ⟨rfl, ?_, ?_, ?_, ?_, ?_, ?_, ?_⟩ <;> decide

/-- C3, amended. For every plaintext relay in which the outbound call succeeds
and the body copy completes, the response sent to the client has status 200
and the headers of the fresh response writer, none of them taken from the
upstream response, whatever the upstream status code and headers are; the
upstream status code goes to the log line only. -/
theorem relay_status_is_default (env : Env) (room : Option Nat) (msg : String)
    (hj : HijackCap) (r : Request) (resp : Response)
    (hm : r.method ≠ "CONNECT") (hp : r.path ≠ "/health")
    (hnew : env.newRequest r.method r.url = none)
    (hdo : env.roundTrip (outboundRequest r) = Except.ok resp)
    (hcopy : (ioCopy ResponseWriter.Write ((ResponseWriter.fresh room msg hj).bind r)
      resp.body).2.2 = CopyEnd.ok) :
    (serve env (ResponseWriter.fresh room msg hj) r).w.status = some 200 ∧
    (serve env (ResponseWriter.fresh room msg hj) r).w.sentHeader = [] ∧
    (serve env (ResponseWriter.fresh room msg hj) r).w.header = [] ∧
    Event.log (LogLine.relayed r.proto r.method r.host resp.statusCode
      (resp.body.data.length / 1000))
      ∈ (serve env (ResponseWriter.fresh room msg hj) r).trace := by
  have hlen := (ioCopy_ok_result _ resp.body hcopy).2
  have hok := handleHTTP_ok env _ r resp hnew hdo hcopy
  obtain ⟨f1, f2, f3, f4⟩ := ioCopy_fresh room msg hj r resp.body
  rw [serve_relay env _ r hm hp, hok]
  rcases hc : ioCopy ResponseWriter.Write ((ResponseWriter.fresh room msg hj).bind r)
    resp.body with ⟨w1, n, e⟩
  rw [hc] at f1 f2 f3 f4 hlen
  simp only at f1 f2 f3 f4 hlen
  subst hlen
  by_cases hd : resp.body.data = []
  · simp [hd, Outcome.called, finishRequest, ResponseWriter.WriteHeader, f1, f2, f3, f4] at f3 ⊢
  · simp [hd, Outcome.called, finishRequest, ResponseWriter.WriteHeader, f1, f2, f3, f4] at f3 ⊢

/-- C3 amended, at the upstream answer `404`. -/
theorem relay_status_is_default_witness :
    (serve (worldWith notFound) sampleWriter sampleRequest).w.status = some 200 :=
  (relay_status_is_default (worldWith notFound) none "write: broken pipe" sampleWriter.hijack
    sampleRequest notFound (by decide) (by decide) rfl rfl (by decide)).1

/-- C7, as stated, fails: three relays of one request in which the outbound
call succeeds. The body copy succeeds in the first two (a body of two octets,
an empty body), and the client receives 200; it fails before the first octet
in the third, and the client receives 500. -/
theorem copy_failure_counterexample :
    (worldWith found).roundTrip (outboundRequest sampleRequest) = Except.ok found ∧
    (worldWith emptyBody).roundTrip (outboundRequest sampleRequest) = Except.ok emptyBody ∧
    (worldWith resetAtStart).roundTrip (outboundRequest sampleRequest)
      = Except.ok resetAtStart ∧
    (ioCopy ResponseWriter.Write sampleWriter found.body).2.2 = CopyEnd.ok ∧
    (ioCopy ResponseWriter.Write sampleWriter emptyBody.body).2.2 = CopyEnd.ok ∧
    (ioCopy ResponseWriter.Write sampleWriter resetAtStart.body).2.2
      = CopyEnd.failed "read: connection reset by peer" ∧
    (serve (worldWith found) sampleWriter sampleRequest).w.status = some 200 ∧
    (serve (worldWith emptyBody) sampleWriter sampleRequest).w.status = some 200 ∧
    (serve (worldWith resetAtStart) sampleWriter sampleRequest).w.status = some 500 := by
  refine ⟨rfl, rfl, rfl, ?_, ?_, ?_, ?_, ?_, ?_⟩ <;> decide

/-- C7, amended. In every plaintext relay in which the outbound call succeeded
and the body copy fails, the failure is logged and `WriteHeader(500)` is
called: when the upstream body had yielded an octet before the failure, the
write of that octet had fixed the status 200 and the client receives 200 as in
a relay whose copy succeeds; when the copy fails before any octet, the client
receives 500. -/
theorem copy_failure_status (env : Env) (room : Option Nat) (msg : String)
    (hj : HijackCap) (r : Request) (resp : Response) (e : String)
    (hm : r.method ≠ "CONNECT") (hp : r.path ≠ "/health")
    (hnew : env.newRequest r.method r.url = none)
    (hdo : env.roundTrip (outboundRequest r) = Except.ok resp)
    (hcopy : (ioCopy ResponseWriter.Write ((ResponseWriter.fresh room msg hj).bind r)
      resp.body).2.2 = CopyEnd.failed e) :
    Event.log (LogLine.copyError r.url e)
      ∈ (serve env (ResponseWriter.fresh room msg hj) r).trace ∧
    (serve env (ResponseWriter.fresh room msg hj) r).w.status
      = some (if resp.body.data = [] then 500 else 200) := by
  have hf := handleHTTP_failed env _ r resp e hnew hdo hcopy
  obtain ⟨f1, f2, f3, f4⟩ := ioCopy_fresh room msg hj r resp.body
  rw [serve_relay env _ r hm hp, hf]
  rcases hc : ioCopy ResponseWriter.Write ((ResponseWriter.fresh room msg hj).bind r)
    resp.body with ⟨w1, n, e'⟩
  rw [hc] at f1 f2 f3 f4
  simp only at f1 f2 f3 f4
  by_cases hd : resp.body.data = []
  · simp [hd, Outcome.called, finishRequest, ResponseWriter.WriteHeader, f1, f2, f3, f4] at f3 ⊢
  · simp [hd, Outcome.called, finishRequest, ResponseWriter.WriteHeader, f1, f2, f3, f4] at f3 ⊢

/-- C7 amended, at a body that breaks after two octets: the client receives 200. -/
theorem copy_failure_status_witness :
    (serve (worldWith resetMidway) sampleWriter sampleRequest).w.status = some 200 :=
  (copy_failure_status (worldWith resetMidway) none "write: broken pipe" sampleWriter.hijack
    sampleRequest resetMidway "read: connection reset by peer"
    (by decide) (by decide) rfl rfl (by decide)).2


/-! ## The tunnel invariant -/

theorem spawns_append (a b : List Event) : spawns (a ++ b) = spawns a ++ spawns b := by
  induction a with
  | nil => rfl
  | cons e rest ih => cases e <;> simp [spawns, ih]

theorem calls_append (a b : List Event) : calls (a ++ b) = calls a ++ calls b := by
  induction a with
  | nil => rfl
  | cons e rest ih => cases e <;> simp [calls, ih]

theorem TunnelInv.start (src dest : Conn) (T0 : List Event)
    (h1 : spawns T0 = []) (h2 : calls T0 = [])
    (h3 : ∀ d, T0.count (Event.wgDone d) = 0)
    (h4 : T0.count Event.closeSrc = 0) (h5 : T0.count Event.closeDest = 0) :
    TunnelInv src dest (Tunnel.start src dest T0) := by
  constructor <;>
    simp [Tunnel.start, Transfer.pending, h1, h2, h3, h4, h5, copyInv]


theorem TunnelInv.stepMain {src dest : Conn} {s : Tunnel} (h : TunnelInv src dest s) :
    TunnelInv src dest s.stepMain := by
  obtain ⟨mainPc, wg, up, down, trace⟩ := s
  obtain ⟨h1, h2, h3, h4, h5, h6, h7, h8, h9, h10, h11, h12⟩ := h
  simp only at h1 h2 h3 h4 h5 h6 h7 h8 h9 h10 h11 h12
  cases mainPc with
  | go1 =>
    have hu : up.pc = TPc.idle := h2.mpr rfl
    have hd : down.pc = TPc.idle := h3.mpr (Or.inl rfl)
    simp only [hu, hd] at h5 h6
    constructor <;>
      simp_all [Tunnel.stepMain, Transfer.pending, spawns_append, calls_append, spawns, calls,
        copyInv, ioCopy, List.count_append]
  | go2 =>
    have hd : down.pc = TPc.idle := h3.mpr (Or.inr rfl)
    simp only [hd] at h6
    constructor <;>
      simp_all [Tunnel.stepMain, Transfer.pending, spawns_append, calls_append, spawns, calls,
        copyInv, ioCopy, List.count_append]
  | waiting =>
    by_cases hw : wg = 0
    · subst hw
      have hfin : up.pc = TPc.finished ∧ down.pc = TPc.finished := by
        unfold Transfer.pending at h1
        by_cases hu : up.pc = TPc.finished <;> by_cases hd : down.pc = TPc.finished <;>
          simp [hu, hd] at h1 ⊢
      have hmu : Event.wgDone Dir.up ∈ trace := by
        apply List.count_pos_iff.mp
        rw [h5]; simp [hfin.1]
      have hmd : Event.wgDone Dir.down ∈ trace := by
        apply List.count_pos_iff.mp
        rw [h6]; simp [hfin.2]
      constructor
      · simpa [Tunnel.stepMain] using h1
      · simp [Tunnel.stepMain, hfin.1]
      · simp [Tunnel.stepMain, hfin.2]
      · simpa [Tunnel.stepMain, spawns_append, spawns] using h4
      · simpa [Tunnel.stepMain, List.count_append] using h5
      · simpa [Tunnel.stepMain, List.count_append] using h6
      · simpa [Tunnel.stepMain, List.count_append] using h7
      · simpa [Tunnel.stepMain, List.count_append] using h8
      · intro _
        exact ⟨hfin.1, hfin.2, trace, by simp [Tunnel.stepMain], hmu, hmd⟩
      · simpa [Tunnel.stepMain] using h10
      · simpa [Tunnel.stepMain] using h11
      · simpa [Tunnel.stepMain, calls_append, calls] using h12
    · simp only [Tunnel.stepMain, hw, if_false]
      exact ⟨h1, h2, h3, h4, h5, h6, h7, h8, h9, h10, h11, h12⟩
  | returned =>
    exact ⟨h1, h2, h3, h4, h5, h6, h7, h8, h9, h10, h11, h12⟩


theorem copyInv_step_chunk (R : Reader) (S : Sink) (t : Transfer) (c : Bytes)
    (rest : List Bytes) (hpc : t.pc = TPc.copying) (hch : t.src.chunks = c :: rest)
    (h : copyInv R S t) :
    copyInv R S
      (match copyChunk Sink.Write t.dst c t.written with
       | (dst', written', some e) =>
         { t with pc := TPc.copied (some e), src := { t.src with chunks := rest },
                  dst := dst', written := written' }
       | (dst', written', none) =>
         { t with src := { t.src with chunks := rest }, dst := dst', written := written' }) := by
  unfold copyInv at h
  rw [hpc] at h
  simp only at h
  rw [hch, ioCopyLoop_cons] at h
  rcases hcc : copyChunk Sink.Write t.dst c t.written with ⟨d, m, e⟩
  rw [hcc] at h
  cases e with
  | some e => simp only at h ⊢; simp [copyInv, h]
  | none => simp only at h ⊢; simp [copyInv, hpc, h]

theorem copyInv_step_end (R : Reader) (S : Sink) (t : Transfer)
    (hpc : t.pc = TPc.copying) (hch : t.src.chunks = [])
    (h : copyInv R S t) :
    (t.src.final = ReadEnd.eof → copyInv R S { t with pc := TPc.copied none }) ∧
    (∀ e, t.src.final = ReadEnd.err e → copyInv R S { t with pc := TPc.copied (some e) }) := by
  unfold copyInv at h
  rw [hpc] at h
  simp only at h
  rw [hch] at h
  constructor
  · intro hf
    rw [hf] at h
    simp [copyInv, ← h, ioCopyLoop]
  · intro e hf
    rw [hf] at h
    simp [copyInv, ← h, ioCopyLoop]

theorem copyInv_step_copied (R : Reader) (S : Sink) (t : Transfer) (err : Option String)
    (hpc : t.pc = TPc.copied err) (h : copyInv R S t) :
    copyInv R S { t with pc := TPc.exiting } ∧ copyInv R S { t with pc := TPc.finished } := by
  unfold copyInv at h
  rw [hpc] at h
  simp only at h
  cases err <;> simp [copyInv, h]

theorem copyInv_step_exiting (R : Reader) (S : Sink) (t : Transfer)
    (hpc : t.pc = TPc.exiting) (h : copyInv R S t) :
    copyInv R S { t with pc := TPc.finished } := by
  unfold copyInv at h
  rw [hpc] at h
  simpa [copyInv] using h


theorem TunnelInv.stepUp {src dest : Conn} {s : Tunnel} (h : TunnelInv src dest s) :
    TunnelInv src dest (s.stepTransfer Dir.up) := by
  obtain ⟨mainPc, wg, up, down, trace⟩ := s
  obtain ⟨h1, h2, h3, h4, h5, h6, h7, h8, h9, h10, h11, h12⟩ := h
  simp only at h1 h2 h3 h4 h5 h6 h7 h8 h9 h10 h11 h12
  unfold Tunnel.stepTransfer
  simp only [Tunnel.get]
  cases hpc : up.pc with
  | idle => exact ⟨h1, h2, h3, h4, h5, h6, h7, h8, h9, h10, h11, h12⟩
  | finished => exact ⟨h1, h2, h3, h4, h5, h6, h7, h8, h9, h10, h11, h12⟩
  | copying =>
    simp only [hpc] at h1 h2 h5 h9
    cases hch : up.src.chunks with
    | nil =>
      obtain ⟨e1, e2⟩ := copyInv_step_end _ _ up hpc hch h10
      cases hf : up.src.final with
      | block => exact ⟨h1, by rw [hpc]; exact h2, h3, h4, by rw [hpc]; exact h5, h6, h7, h8,
          by rw [hpc]; exact h9, h10, h11, h12⟩
      | eof =>
        have e1' := e1 hf
        constructor <;> simp_all [Tunnel.put, Transfer.pending]
      | err e =>
        have e2' := e2 e hf
        constructor <;> simp_all [Tunnel.put, Transfer.pending]
    | cons c rest =>
      have hstep := copyInv_step_chunk _ _ up c rest hpc hch h10
      rcases hcc : copyChunk Sink.Write up.dst c up.written with ⟨d, m, e⟩
      rw [hcc] at hstep
      cases e with
      | some e => constructor <;> simp_all [Tunnel.put, Transfer.pending]
      | none => constructor <;> simp_all [Tunnel.put, Transfer.pending]
  | copied err =>
    obtain ⟨c1, _⟩ := copyInv_step_copied _ _ up err hpc h10
    simp only [hpc] at h1 h2 h5 h9
    cases err with
    | none =>
      constructor <;>
        simp_all [Tunnel.put, Transfer.pending, spawns_append, calls_append, spawns, calls,
          List.count_append]
    | some e =>
      constructor <;>
        simp_all [Tunnel.put, Transfer.pending, spawns_append, calls_append, spawns, calls,
          List.count_append]
  | exiting =>
    have c1 := copyInv_step_exiting _ _ up hpc h10
    simp only [hpc] at h1 h2 h5 h9
    constructor <;>
      simp_all [Tunnel.put, Transfer.pending, spawns_append, calls_append, spawns, calls,
        List.count_append]


theorem TunnelInv.stepDown {src dest : Conn} {s : Tunnel} (h : TunnelInv src dest s) :
    TunnelInv src dest (s.stepTransfer Dir.down) := by
  obtain ⟨mainPc, wg, up, down, trace⟩ := s
  obtain ⟨h1, h2, h3, h4, h5, h6, h7, h8, h9, h10, h11, h12⟩ := h
  simp only at h1 h2 h3 h4 h5 h6 h7 h8 h9 h10 h11 h12
  unfold Tunnel.stepTransfer
  simp only [Tunnel.get]
  cases hpc : down.pc with
  | idle => exact ⟨h1, h2, h3, h4, h5, h6, h7, h8, h9, h10, h11, h12⟩
  | finished => exact ⟨h1, h2, h3, h4, h5, h6, h7, h8, h9, h10, h11, h12⟩
  | copying =>
    simp only [hpc] at h1 h3 h6 h9
    cases hch : down.src.chunks with
    | nil =>
      obtain ⟨e1, e2⟩ := copyInv_step_end _ _ down hpc hch h11
      cases hf : down.src.final with
      | block => exact ⟨h1, h2, by rw [hpc]; exact h3, h4, h5, by rw [hpc]; exact h6, h7, h8,
          by rw [hpc]; exact h9, h10, h11, h12⟩
      | eof =>
        have e1' := e1 hf
        constructor <;> simp_all [Tunnel.put, Transfer.pending]
      | err e =>
        have e2' := e2 e hf
        constructor <;> simp_all [Tunnel.put, Transfer.pending]
    | cons c rest =>
      have hstep := copyInv_step_chunk _ _ down c rest hpc hch h11
      rcases hcc : copyChunk Sink.Write down.dst c down.written with ⟨d, m, e⟩
      rw [hcc] at hstep
      cases e with
      | some e => constructor <;> simp_all [Tunnel.put, Transfer.pending]
      | none => constructor <;> simp_all [Tunnel.put, Transfer.pending]
  | copied err =>
    obtain ⟨c1, _⟩ := copyInv_step_copied _ _ down err hpc h11
    simp only [hpc] at h1 h3 h6 h9
    cases err with
    | none =>
      constructor <;>
        simp_all [Tunnel.put, Transfer.pending, spawns_append, calls_append, spawns, calls,
          List.count_append]
    | some e =>
      constructor <;>
        simp_all [Tunnel.put, Transfer.pending, spawns_append, calls_append, spawns, calls,
          List.count_append]
  | exiting =>
    have c1 := copyInv_step_exiting _ _ down hpc h11
    simp only [hpc] at h1 h3 h6 h9
    constructor <;>
      simp_all [Tunnel.put, Transfer.pending, spawns_append, calls_append, spawns, calls,
        List.count_append]

theorem TunnelInv.step {src dest : Conn} {s : Tunnel} (h : TunnelInv src dest s) (t : Tid) :
    TunnelInv src dest (s.step t) := by
  cases t with
  | main => exact h.stepMain
  | transfer d =>
    cases d with
    | up => exact h.stepUp
    | down => exact h.stepDown

theorem TunnelInv.run {src dest : Conn} (schedule : List Tid) :
    ∀ {s : Tunnel}, TunnelInv src dest s → TunnelInv src dest (s.run schedule) := by
  induction schedule with
  | nil => intro s h; exact h
  | cons t rest ih =>
    intro s h
    exact ih (h.step t)

/-- The invariant holds when the handler enters the tunnel. -/
theorem TunnelInv.atStart (r : Request) (src dest : Conn) :
    TunnelInv src dest
      (Tunnel.start src dest
        [Event.dial "tcp" r.host 10, Event.hijack true,
         Event.log (LogLine.tunnel r.proto r.method r.host),
         Event.log (LogLine.conns (connStr src) (connStr dest)),
         Event.wgAdd 2]) := by
  apply TunnelInv.start
  · rfl
  · rfl
  · intro d; simp [List.count_cons]
  · simp [List.count_cons]
  · simp [List.count_cons]

/-- The invariant holds in the tunnel of the handler under every schedule. -/
theorem TunnelInv.ofHandler (env : Env) (r : Request) (src dest : Conn) :
    TunnelInv src dest
      ((Tunnel.start src dest
        [Event.dial "tcp" r.host 10, Event.hijack true,
         Event.log (LogLine.tunnel r.proto r.method r.host),
         Event.log (LogLine.conns (connStr src) (connStr dest)),
         Event.wgAdd 2]).run env.schedule) := by
  apply TunnelInv.run
  apply TunnelInv.start
  · rfl
  · rfl
  · intro d; simp [List.count_cons]
  · simp [List.count_cons]
  · simp [List.count_cons]


/-! ## The handlers record no call of their own -/

theorem handleHTTP_calls (env : Env) (w : ResponseWriter) (r : Request) :
    calls (handleHTTP env w r).trace = [] := by
  unfold handleHTTP
  cases env.newRequest r.method r.url with
  | some e => rfl
  | none =>
    simp only
    cases env.roundTrip (outboundRequest r) with
    | error e => rfl
    | ok resp =>
      simp only
      rcases ioCopy ResponseWriter.Write w resp.body with ⟨w1, n, e⟩
      cases e <;> rfl

theorem handleTunnel_calls (env : Env) (w : ResponseWriter) (r : Request) :
    calls (handleTunnel env w r).trace = [] := by
  unfold handleTunnel
  cases env.dial r.host with
  | error e => rfl
  | ok dest =>
    simp only
    cases hh : (w.WriteHeader 200).hijack with
    | unsupported => rfl
    | fails e => rfl
    | ok src => exact (TunnelInv.ofHandler env r src dest).no_call

/-- C1. For every inbound request the handler function of `main` calls exactly
one handler: `handleTunnel` when the method is `CONNECT`, whatever the path;
otherwise `healthCheck` when the path is `/health`, whatever the method;
otherwise `handleHTTP`. -/
theorem dispatch_calls_one_handler (env : Env) (w : ResponseWriter) (r : Request) :
    calls (dispatch env w r).trace =
      [if r.method = "CONNECT" then HandlerName.handleTunnel
       else if r.path = "/health" then HandlerName.healthCheck
       else HandlerName.handleHTTP] ∧
    (r.method = "CONNECT" →
      dispatch env w r = (handleTunnel env w r).called HandlerName.handleTunnel) ∧
    (r.method ≠ "CONNECT" → r.path = "/health" →
      dispatch env w r = (healthCheck w r).called HandlerName.healthCheck) ∧
    (r.method ≠ "CONNECT" → r.path ≠ "/health" →
      dispatch env w r = (handleHTTP env w r).called HandlerName.handleHTTP) := by
  refine ⟨?_, ?_, ?_, ?_⟩
  · unfold dispatch
    by_cases hm : r.method = "CONNECT"
    · simp [hm, Outcome.called, calls, handleTunnel_calls]
    · by_cases hp : r.path = "/health"
      · simp [hm, hp, Outcome.called, calls, healthCheck]
      · simp [hm, hp, Outcome.called, calls, handleHTTP_calls]
  · intro hm; simp [dispatch, hm]
  · intro hm hp; simp [dispatch, hm, hp]
  · intro hm hp; simp [dispatch, hm, hp]

/-- C1, at a `CONNECT` request for the path `/health`: the tunnel handler is
the one called. -/
theorem dispatch_calls_one_handler_witness :
    calls (dispatch openWorld sampleWriter { connectRequest with path := "/health" }).trace
      = [HandlerName.handleTunnel] :=
  (dispatch_calls_one_handler openWorld sampleWriter
    { connectRequest with path := "/health" }).1.trans (by decide)


/-! ## Error replies, the liveness probe -/

/-- The headers `http.Error` sets on an empty header map. -/
theorem httpError_headers :
    Header.Set (Header.Set (Header.Del [] "Content-Length") "Content-Type"
      "text/plain; charset=utf-8") "X-Content-Type-Options" "nosniff" =
    [("Content-Type", ["text/plain; charset=utf-8"]), ("X-Content-Type-Options", ["nosniff"])] := by
  decide

/-- The reply of `http.Error` on a fresh response writer whose connection
takes the reply: the status is `code`, the content type is plain text, and the
body is the message and a line end. -/
theorem httpError_fresh (room : Option Nat) (msg : String) (hj : HijackCap) (error : String)
    (code : Nat) (hroom : ∀ n, room = some n → (bytesOf error).length + 1 ≤ n) :
    (httpError (ResponseWriter.fresh room msg hj) error code).status = some code ∧
    (httpError (ResponseWriter.fresh room msg hj) error code).sentHeader =
      [("Content-Type", ["text/plain; charset=utf-8"]), ("X-Content-Type-Options", ["nosniff"])] ∧
    (httpError (ResponseWriter.fresh room msg hj) error code).body.got = bytesOf error ++ [10] ∧
    (httpError (ResponseWriter.fresh room msg hj) error code).hijacked = false ∧
    (httpError (ResponseWriter.fresh room msg hj) error code).sent = bytesOf error ++ [10] := by
  cases room with
  | none =>
    simp [httpError, ResponseWriter.fresh, httpError_headers, ResponseWriter.WriteHeader,
      ResponseWriter.Write, Sink.Write]
  | some n =>
    have hn := hroom n rfl
    simp [httpError, ResponseWriter.fresh, httpError_headers, ResponseWriter.WriteHeader,
      ResponseWriter.Write, Sink.Write, hn]

/-- C5. For every `CONNECT` request whose dial to `r.Host` (TCP, 10 seconds)
fails, `handleTunnel` answers with status 503 and, as plain text, the message
of the dial error (printed by `http.Error`, which ends it with a line end); it
does not hijack the client connection, starts no transfer, and returns. -/
theorem handleTunnel_dial_failure (env : Env) (room : Option Nat) (msg : String)
    (hj : HijackCap) (r : Request) (e : String)
    (hdial : env.dial r.host = Except.error e)
    (hroom : ∀ n, room = some n → (bytesOf e).length + 1 ≤ n) :
    (handleTunnel env (ResponseWriter.fresh room msg hj) r).w.status = some 503 ∧
    (handleTunnel env (ResponseWriter.fresh room msg hj) r).w.body.got = bytesOf e ++ [10] ∧
    Header.find (handleTunnel env (ResponseWriter.fresh room msg hj) r).w.sentHeader
      "Content-Type" = some ["text/plain; charset=utf-8"] ∧
    (handleTunnel env (ResponseWriter.fresh room msg hj) r).w.hijacked = false ∧
    (handleTunnel env (ResponseWriter.fresh room msg hj) r).trace
      = [Event.dial "tcp" r.host 10] ∧
    (∀ b, Event.hijack b ∉ (handleTunnel env (ResponseWriter.fresh room msg hj) r).trace) ∧
    (∀ d, Event.spawn d ∉ (handleTunnel env (ResponseWriter.fresh room msg hj) r).trace) ∧
    (handleTunnel env (ResponseWriter.fresh room msg hj) r).tunnel = none ∧
    (handleTunnel env (ResponseWriter.fresh room msg hj) r).returned = true ∧
    (handleTunnel env (ResponseWriter.fresh room msg hj) r).w.sent = bytesOf e ++ [10] := by
  obtain ⟨h1, h2, h3, h4, h5⟩ := httpError_fresh room msg hj e 503 hroom
  have hh : handleTunnel env (ResponseWriter.fresh room msg hj) r =
      { w := httpError (ResponseWriter.fresh room msg hj) e 503,
        trace := [Event.dial "tcp" r.host 10],
        returned := true, written := none, tunnel := none } := by
    simp [handleTunnel, hdial]
  rw [hh]
  refine ⟨h1, h3, ?_, h4, rfl, ?_, ?_, rfl, rfl, h5⟩
  · simp only [h2]; decide
  · intro b; simp
  · intro d; simp

/-- C5, at a refused dial. -/
theorem handleTunnel_dial_failure_witness :
    (handleTunnel (worldWith notFound) sampleWriter connectRequest).w.status = some 503 :=
  (handleTunnel_dial_failure (worldWith notFound) none "write: broken pipe" sampleWriter.hijack
    connectRequest "dial tcp: connect: connection refused" rfl
    (fun _ hn => nomatch hn)).1

/-- C8, as stated, fails: `HEAD /health` is no `CONNECT` and has the path
`/health`; `healthCheck` writes `OK`, the status is 200, and the server sends
no body octet in answer to a `HEAD` request. -/
theorem health_check_head_counterexample :
    ({ sampleRequest with method := "HEAD", path := "/health" } : Request).method ≠ "CONNECT" ∧
    ({ sampleRequest with method := "HEAD", path := "/health" } : Request).path = "/health" ∧
    (serve (worldWith notFound) sampleWriter
      { sampleRequest with method := "HEAD", path := "/health" }).w.status = some 200 ∧
    (serve (worldWith notFound) sampleWriter
      { sampleRequest with method := "HEAD", path := "/health" }).w.body.got = bytesOf "OK" ∧
    (serve (worldWith notFound) sampleWriter
      { sampleRequest with method := "HEAD", path := "/health" }).w.sent = [] ∧
    (serve (worldWith notFound) sampleWriter
      { sampleRequest with method := "HEAD", path := "/health" }).w.sent ≠ bytesOf "OK" := by
  refine ⟨?_, ?_, ?_, ?_, ?_, ?_⟩ <;> decide

/-- C8, amended. For every request that is not a `CONNECT` and whose path is
`/health`, the response has status 200 and `healthCheck` writes exactly `OK`
as its body; the client receives exactly `OK` as the body when the method is
not `HEAD`, and no body octet when it is `HEAD`. Handling the request dials
nothing and makes no outbound call (the trace holds the call of `healthCheck`
and its log line only), and the outcome is the same in every world, reachable
upstream or not. -/
theorem health_check_isolated (env : Env) (room : Option Nat) (msg : String)
    (hj : HijackCap) (r : Request)
    (hm : r.method ≠ "CONNECT") (hp : r.path = "/health")
    (hroom : ∀ n, room = some n → 2 ≤ n) :
    (serve env (ResponseWriter.fresh room msg hj) r).w.status = some 200 ∧
    (serve env (ResponseWriter.fresh room msg hj) r).w.body.got = bytesOf "OK" ∧
    (serve env (ResponseWriter.fresh room msg hj) r).w.sent
      = (if r.method = "HEAD" then [] else bytesOf "OK") ∧
    (serve env (ResponseWriter.fresh room msg hj) r).returned = true ∧
    (serve env (ResponseWriter.fresh room msg hj) r).trace
      = [Event.call HandlerName.healthCheck, Event.log LogLine.healthCheck] ∧
    (∀ network addr t,
      Event.dial network addr t ∉ (serve env (ResponseWriter.fresh room msg hj) r).trace) ∧
    (∀ req, Event.clientDo req ∉ (serve env (ResponseWriter.fresh room msg hj) r).trace) ∧
    (∀ env', serve env' (ResponseWriter.fresh room msg hj) r
      = serve env (ResponseWriter.fresh room msg hj) r) := by
  have hlen : (bytesOf "OK").length = 2 := by decide
  have hs : ∀ env' : Env, serve env' (ResponseWriter.fresh room msg hj) r =
      { w := finishRequest
          (((ResponseWriter.fresh room msg hj).bind r).Write (bytesOf "OK")).1,
        trace := [Event.call HandlerName.healthCheck, Event.log LogLine.healthCheck],
        returned := true, written := none, tunnel := none } := by
    intro env'
    simp [serve, dispatch, hm, hp, healthCheck, Outcome.called]
  rw [hs env]
  refine ⟨?_, ?_, ?_, rfl, rfl, ?_, ?_, ?_⟩
  · by_cases hh : r.method = "HEAD" <;> cases room <;>
      simp [finishRequest, ResponseWriter.fresh, ResponseWriter.bind,
        ResponseWriter.WriteHeader, ResponseWriter.Write, hh]
  · by_cases hh : r.method = "HEAD"
    · simp [finishRequest, ResponseWriter.fresh, ResponseWriter.bind,
        ResponseWriter.WriteHeader, ResponseWriter.Write, hh]
    · cases room with
      | none =>
        simp [finishRequest, ResponseWriter.fresh, ResponseWriter.bind,
          ResponseWriter.WriteHeader, ResponseWriter.Write, Sink.Write, hh]
      | some n =>
        have hn := hroom n rfl
        simp [finishRequest, ResponseWriter.fresh, ResponseWriter.bind,
          ResponseWriter.WriteHeader, ResponseWriter.Write, Sink.Write, hlen, hn, hh]
  · by_cases hh : r.method = "HEAD"
    · simp [finishRequest, ResponseWriter.fresh, ResponseWriter.bind,
        ResponseWriter.WriteHeader, ResponseWriter.Write, hh]
    · cases room with
      | none =>
        simp [finishRequest, ResponseWriter.fresh, ResponseWriter.bind,
          ResponseWriter.WriteHeader, ResponseWriter.Write, Sink.Write, hh, hlen]
      | some n =>
        have hn := hroom n rfl
        simp [finishRequest, ResponseWriter.fresh, ResponseWriter.bind,
          ResponseWriter.WriteHeader, ResponseWriter.Write, Sink.Write, hlen, hn, hh]
  · intro network addr t; simp
  · intro req; simp
  · intro env'; exact hs env'

/-- C8 amended, at a `GET /health` in a world where every dial is refused. -/
theorem health_check_isolated_witness :
    (serve (worldWith resetAtStart) sampleWriter { sampleRequest with path := "/health" }).w.sent
      = bytesOf "OK" :=
  (health_check_isolated (worldWith resetAtStart) none "write: broken pipe" sampleWriter.hijack
    { sampleRequest with path := "/health" } (by decide) rfl
    (fun _ hn => nomatch hn)).2.2.1.trans (by decide)

/-! ## Every tunnel whose peers do not block can end -/

theorem Tunnel.stepTransfer_frame (s : Tunnel) (d : Dir) :
    (s.stepTransfer d).mainPc = s.mainPc ∧
    (∀ d', d' ≠ d → (s.stepTransfer d).get d' = s.get d') ∧
    ((s.stepTransfer d).get d).src.final = (s.get d).src.final := by
  obtain ⟨mainPc, wg, up, down, trace⟩ := s
  refine ⟨?_, ?_, ?_⟩
  · cases d <;>
    · unfold Tunnel.stepTransfer
      simp only [Tunnel.get]
      repeat' split
      all_goals simp [Tunnel.put]
  · intro d' hd'
    cases d <;> cases d' <;> first
      | exact absurd rfl hd'
      | (unfold Tunnel.stepTransfer
         simp only [Tunnel.get]
         repeat' split
         all_goals simp [Tunnel.put, Tunnel.get])
  · cases d <;>
    · unfold Tunnel.stepTransfer
      simp only [Tunnel.get]
      repeat' split
      all_goals simp [Tunnel.put, Tunnel.get]

theorem Tunnel.stepTransfer_progress (s : Tunnel) (d : Dir)
    (hb : (s.get d).src.final ≠ ReadEnd.block) (hi : (s.get d).pc ≠ TPc.idle) :
    ((s.stepTransfer d).get d).stepsLeft ≤ (s.get d).stepsLeft - 1 ∧
    ((s.stepTransfer d).get d).pc ≠ TPc.idle := by
  obtain ⟨mainPc, wg, up, down, trace⟩ := s
  cases d
  · simp only [Tunnel.get] at hb hi
    unfold Tunnel.stepTransfer
    simp only [Tunnel.get]
    cases hpc : up.pc with
    | idle => exact absurd hpc hi
    | finished => simp [Tunnel.get, Transfer.stepsLeft, hpc]
    | exiting => simp [Tunnel.get, Tunnel.put, Transfer.stepsLeft, hpc]
    | copied err => simp [Tunnel.get, Tunnel.put, Transfer.stepsLeft, hpc]
    | copying =>
      cases hch : up.src.chunks with
      | nil =>
        cases hf : up.src.final with
        | block => exact absurd hf hb
        | eof => simp [Tunnel.get, Tunnel.put, Transfer.stepsLeft, hpc, hch]
        | err e => simp [Tunnel.get, Tunnel.put, Transfer.stepsLeft, hpc, hch]
      | cons c rest =>
        rcases hcc : copyChunk Sink.Write up.dst c up.written with ⟨dd, m, e⟩
        cases e <;> simp [Tunnel.get, Tunnel.put, Transfer.stepsLeft, hpc, hch, hcc]
  · simp only [Tunnel.get] at hb hi
    unfold Tunnel.stepTransfer
    simp only [Tunnel.get]
    cases hpc : down.pc with
    | idle => exact absurd hpc hi
    | finished => simp [Tunnel.get, Transfer.stepsLeft, hpc]
    | exiting => simp [Tunnel.get, Tunnel.put, Transfer.stepsLeft, hpc]
    | copied err => simp [Tunnel.get, Tunnel.put, Transfer.stepsLeft, hpc]
    | copying =>
      cases hch : down.src.chunks with
      | nil =>
        cases hf : down.src.final with
        | block => exact absurd hf hb
        | eof => simp [Tunnel.get, Tunnel.put, Transfer.stepsLeft, hpc, hch]
        | err e => simp [Tunnel.get, Tunnel.put, Transfer.stepsLeft, hpc, hch]
      | cons c rest =>
        rcases hcc : copyChunk Sink.Write down.dst c down.written with ⟨dd, m, e⟩
        cases e <;> simp [Tunnel.get, Tunnel.put, Transfer.stepsLeft, hpc, hch, hcc]

theorem Tunnel.run_replicate (d : Dir) :
    ∀ (n : Nat) (s : Tunnel), (s.get d).src.final ≠ ReadEnd.block → (s.get d).pc ≠ TPc.idle →
      ((s.run (List.replicate n (Tid.transfer d))).get d).stepsLeft ≤ (s.get d).stepsLeft - n ∧
      (s.run (List.replicate n (Tid.transfer d))).mainPc = s.mainPc ∧
      (∀ d', d' ≠ d → (s.run (List.replicate n (Tid.transfer d))).get d' = s.get d') := by
  intro n
  induction n with
  | zero => intro s _ _; simp [Tunnel.run]
  | succ n ih =>
    intro s hb hi
    obtain ⟨f1, f2, f3⟩ := Tunnel.stepTransfer_frame s d
    obtain ⟨p1, p2⟩ := Tunnel.stepTransfer_progress s d hb hi
    obtain ⟨i1, i2, i3⟩ := ih (s.stepTransfer d) (by rw [f3]; exact hb) p2
    have hrun : s.run (List.replicate (n + 1) (Tid.transfer d))
        = (s.stepTransfer d).run (List.replicate n (Tid.transfer d)) := by
      simp [Tunnel.run, List.replicate_succ, Tunnel.step]
    rw [hrun]
    refine ⟨by omega, i2.trans f1, fun d' hd' => (i3 d' hd').trans (f2 d' hd')⟩

theorem Transfer.finished_of_stepsLeft (t : Transfer) (h : t.stepsLeft = 0) :
    t.pc = TPc.finished := by
  unfold Transfer.stepsLeft at h
  cases hpc : t.pc <;> simp [hpc] at h ⊢

/-- When neither peer blocks, the schedule that gives each transfer as many
steps as its source has chunks, and three more, brings the handler to its
return: such a tunnel can always end. -/
theorem Tunnel.run_joinSchedule (src dest : Conn) (T0 : List Event) (n : Nat)
    (hinv : TunnelInv src dest (Tunnel.start src dest T0))
    (hs : src.incoming.final ≠ ReadEnd.block) (hd : dest.incoming.final ≠ ReadEnd.block)
    (hn1 : src.incoming.chunks.length + 3 ≤ n) (hn2 : dest.incoming.chunks.length + 3 ≤ n) :
    ((Tunnel.start src dest T0).run (joinSchedule n)).mainPc = MainPc.returned := by
  let s2 := ((Tunnel.start src dest T0).stepMain).stepMain
  have hs2 : s2.mainPc = MainPc.waiting ∧ s2.up.pc = TPc.copying ∧ s2.down.pc = TPc.copying ∧
      s2.up.src = src.incoming ∧ s2.down.src = dest.incoming := by
    simp [s2, Tunnel.start, Tunnel.stepMain]
  obtain ⟨m0, u0, d0, us, ds⟩ := hs2
  have hrun : (Tunnel.start src dest T0).run (joinSchedule n) =
      (((s2.run (List.replicate n (Tid.transfer Dir.up))).run
        (List.replicate n (Tid.transfer Dir.down))).stepMain) := by
    simp [Tunnel.run, joinSchedule, List.foldl_append, Tunnel.step, s2]
  have inv : TunnelInv src dest
      ((s2.run (List.replicate n (Tid.transfer Dir.up))).run
        (List.replicate n (Tid.transfer Dir.down))) :=
    TunnelInv.run _ (TunnelInv.run _ hinv.stepMain.stepMain)
  obtain ⟨a1, a2, a3⟩ := Tunnel.run_replicate Dir.up n s2
    (by simp [Tunnel.get, us, hs]) (by simp [Tunnel.get, u0])
  have hdown := a3 Dir.down (by decide)
  obtain ⟨b1, b2, b3⟩ := Tunnel.run_replicate Dir.down n
    (s2.run (List.replicate n (Tid.transfer Dir.up)))
    (by rw [hdown]; simp [Tunnel.get, ds, hd]) (by rw [hdown]; simp [Tunnel.get, d0])
  have hup := b3 Dir.up (by decide)
  have hu0 : (s2.get Dir.up).stepsLeft ≤ n := by
    simp [Tunnel.get, Transfer.stepsLeft, u0, us]; omega
  have hd0 : (s2.get Dir.down).stepsLeft ≤ n := by
    simp [Tunnel.get, Transfer.stepsLeft, d0, ds]; omega
  rw [hdown] at b1
  have fu := Transfer.finished_of_stepsLeft _ (by omega : ((s2.run
    (List.replicate n (Tid.transfer Dir.up))).get Dir.up).stepsLeft = 0)
  have fd := Transfer.finished_of_stepsLeft _ (by omega : (((s2.run
    (List.replicate n (Tid.transfer Dir.up))).run
      (List.replicate n (Tid.transfer Dir.down))).get Dir.down).stepsLeft = 0)
  rw [← hup] at fu
  simp only [Tunnel.get] at fu fd
  have hwg := inv.wg_eq
  simp only [Transfer.pending, fu, fd, if_true] at hwg
  rw [hrun]
  unfold Tunnel.stepMain
  rw [b2, a2, m0]
  simp [hwg]

/-! ## Progress of the tunnel under any schedule -/

theorem Tunnel.stepMain_get {src dest : Conn} {s : Tunnel} (h : TunnelInv src dest s)
    (d : Dir) :
    ((s.stepMain).get d).stepsLeft = (s.get d).stepsLeft ∧
    ((s.stepMain).get d).src = (s.get d).src ∧
    ((s.get d).pc ≠ TPc.idle → ((s.stepMain).get d).pc ≠ TPc.idle) := by
  obtain ⟨mainPc, wg, up, down, trace⟩ := s
  have h2 := h.idle_up
  have h3 := h.idle_down
  simp only at h2 h3
  cases mainPc with
  | go1 =>
    have hu : up.pc = TPc.idle := h2.mpr rfl
    cases d <;> simp [Tunnel.stepMain, Tunnel.get, Transfer.stepsLeft, hu]
  | go2 =>
    have hd : down.pc = TPc.idle := h3.mpr (Or.inr rfl)
    cases d <;> simp [Tunnel.stepMain, Tunnel.get, Transfer.stepsLeft, hd]
  | waiting =>
    by_cases hw : wg = 0 <;> cases d <;> simp [Tunnel.stepMain, Tunnel.get, hw]
  | returned => cases d <;> simp [Tunnel.stepMain, Tunnel.get]

theorem Tunnel.stepTransfer_idle (s : Tunnel) (d : Dir) (h : (s.get d).pc = TPc.idle) :
    s.stepTransfer d = s := by
  unfold Tunnel.stepTransfer
  simp only [h]

theorem Tunnel.stepTransfer_finished (s : Tunnel) (d : Dir)
    (h : (s.get d).pc = TPc.finished) : s.stepTransfer d = s := by
  unfold Tunnel.stepTransfer
  simp only [h]

/-- One step of any thread never sets a transfer back, and a step of the
transfer itself, once it is started and while its source does not block,
brings it nearer to its end. -/
theorem Tunnel.step_stepsLeft {src dest : Conn} {s : Tunnel} (h : TunnelInv src dest s)
    (d : Dir) (hb : (s.get d).src.final ≠ ReadEnd.block) (t : Tid) :
    ((s.step t).get d).stepsLeft ≤ (s.get d).stepsLeft ∧
    ((s.step t).get d).src.final = (s.get d).src.final ∧
    ((s.get d).pc ≠ TPc.idle → ((s.step t).get d).pc ≠ TPc.idle) ∧
    (t = Tid.transfer d → (s.get d).pc ≠ TPc.idle →
      ((s.step t).get d).stepsLeft ≤ (s.get d).stepsLeft - 1) := by
  cases t with
  | main =>
    obtain ⟨m1, m2, m3⟩ := Tunnel.stepMain_get h d
    refine ⟨by simp only [Tunnel.step]; omega, by simp only [Tunnel.step]; rw [m2], m3, ?_⟩
    intro ht
    cases ht
  | transfer d' =>
    simp only [Tunnel.step]
    by_cases hdd : d' = d
    · subst hdd
      obtain ⟨_, _, f3⟩ := Tunnel.stepTransfer_frame s d'
      by_cases hi : (s.get d').pc = TPc.idle
      · rw [Tunnel.stepTransfer_idle s d' hi]
        exact ⟨le_refl _, rfl, fun hn => absurd hi hn, fun _ hn => absurd hi hn⟩
      · obtain ⟨p1, p2⟩ := Tunnel.stepTransfer_progress s d' hb hi
        exact ⟨by omega, f3, fun _ => p2, fun _ _ => p1⟩
    · obtain ⟨_, f2, _⟩ := Tunnel.stepTransfer_frame s d'
      have hget := f2 d (fun e => hdd e.symm)
      rw [hget]
      refine ⟨le_refl _, rfl, fun hn => hn, ?_⟩
      intro ht
      cases ht
      exact absurd rfl hdd

/-- Under any schedule: a transfer whose source does not block is never set
back, and once it is started every one of its steps brings it nearer to its
end. -/
theorem Tunnel.run_stepsLeft {src dest : Conn} (d : Dir) :
    ∀ (L : List Tid) (s : Tunnel), TunnelInv src dest s →
      (s.get d).src.final ≠ ReadEnd.block →
      ((s.run L).get d).stepsLeft ≤ (s.get d).stepsLeft ∧
      ((s.run L).get d).src.final = (s.get d).src.final ∧
      ((s.get d).pc ≠ TPc.idle →
        ((s.run L).get d).pc ≠ TPc.idle ∧
        ((s.run L).get d).stepsLeft ≤ (s.get d).stepsLeft - L.count (Tid.transfer d)) := by
  intro L
  induction L with
  | nil => intro s _ _; simp [Tunnel.run]
  | cons t rest ih =>
    intro s h hb
    obtain ⟨m1, m2, m3, m4⟩ := Tunnel.step_stepsLeft h d hb t
    obtain ⟨i1, i2, i3⟩ := ih (s.step t) (h.step t) (by rw [m2]; exact hb)
    have hrun : s.run (t :: rest) = (s.step t).run rest := rfl
    rw [hrun]
    refine ⟨by omega, i2.trans m2, ?_⟩
    intro hi
    obtain ⟨j1, j2⟩ := i3 (m3 hi)
    refine ⟨j1, ?_⟩
    by_cases ht : t = Tid.transfer d
    · have := m4 ht hi
      subst ht
      simp only [List.count_cons_self]
      omega
    · have hc : (t :: rest).count (Tid.transfer d) = rest.count (Tid.transfer d) := by
        rw [List.count_cons_of_ne (fun e => ht e.symm)]
      rw [hc]
      omega

/-- The handler never steps back, and its first two steps start the two
transfers. -/
theorem Tunnel.run_rank :
    ∀ (L : List Tid) (s : Tunnel),
      s.mainPc.rank ≤ (s.run L).mainPc.rank ∧
      min 2 (s.mainPc.rank + L.count Tid.main) ≤ (s.run L).mainPc.rank := by
  intro L
  induction L with
  | nil => intro s; simp [Tunnel.run]
  | cons t rest ih =>
    intro s
    obtain ⟨i1, i2⟩ := ih (s.step t)
    have hrun : s.run (t :: rest) = (s.step t).run rest := rfl
    rw [hrun]
    cases t with
    | transfer d =>
      have hm : (s.step (Tid.transfer d)).mainPc = s.mainPc :=
        (Tunnel.stepTransfer_frame s d).1
      rw [hm] at i1 i2
      have hc : (Tid.transfer d :: rest).count Tid.main = rest.count Tid.main := by
        rw [List.count_cons_of_ne (by simp)]
      rw [hc]
      exact ⟨i1, i2⟩
    | main =>
      simp only [List.count_cons_self]
      have hstep : s.mainPc.rank ≤ (s.step Tid.main).mainPc.rank ∧
          min 2 (s.mainPc.rank + 1) ≤ (s.step Tid.main).mainPc.rank := by
        obtain ⟨mainPc, wg, up, down, trace⟩ := s
        cases mainPc with
        | go1 => simp [Tunnel.step, Tunnel.stepMain, MainPc.rank]
        | go2 => simp [Tunnel.step, Tunnel.stepMain, MainPc.rank]
        | waiting =>
          by_cases hw : wg = 0 <;> simp [Tunnel.step, Tunnel.stepMain, MainPc.rank, hw]
        | returned => simp [Tunnel.step, Tunnel.stepMain, MainPc.rank]
      omega

theorem MainPc.returned_of_rank (p : MainPc) (h : 3 ≤ p.rank) : p = MainPc.returned := by
  cases p <;> simp [MainPc.rank] at h ⊢

theorem Tunnel.run_append (s : Tunnel) (a b : List Tid) :
    s.run (a ++ b) = (s.run a).run b := by
  simp [Tunnel.run, List.foldl_append]

/-- Once both transfers have ended, the next step of the handler is its
return. -/
theorem Tunnel.run_returns {src dest : Conn} :
    ∀ (L : List Tid) (s : Tunnel), TunnelInv src dest s →
      s.up.pc = TPc.finished → s.down.pc = TPc.finished → 2 ≤ s.mainPc.rank →
      1 ≤ L.count Tid.main → (s.run L).mainPc = MainPc.returned := by
  intro L
  induction L with
  | nil => intro s _ _ _ _ hc; simp at hc
  | cons t rest ih =>
    intro s h hu hd hr hc
    have hrun : s.run (t :: rest) = (s.step t).run rest := rfl
    rw [hrun]
    cases t with
    | transfer d =>
      have hs : s.step (Tid.transfer d) = s := by
        cases d
        · exact Tunnel.stepTransfer_finished s Dir.up hu
        · exact Tunnel.stepTransfer_finished s Dir.down hd
      rw [hs]
      have hc' : (Tid.transfer d :: rest).count Tid.main = rest.count Tid.main := by
        rw [List.count_cons_of_ne (by simp)]
      rw [hc'] at hc
      exact ih s h hu hd hr hc
    | main =>
      have hret : (s.step Tid.main).mainPc = MainPc.returned := by
        have hwg := h.wg_eq
        simp only [Transfer.pending, hu, hd, if_true] at hwg
        obtain ⟨mainPc, wg, up, down, trace⟩ := s
        simp only at hwg hr
        cases mainPc with
        | go1 => simp [MainPc.rank] at hr
        | go2 => simp [MainPc.rank] at hr
        | waiting => simp [Tunnel.step, Tunnel.stepMain, hwg]
        | returned => simp [Tunnel.step, Tunnel.stepMain]
      apply MainPc.returned_of_rank
      have := (Tunnel.run_rank rest (s.step Tid.main)).1
      rw [hret] at this
      simpa [MainPc.rank] using this

/-- Under any schedule that gives a transfer, after both are started, as many
steps as its source has chunks and three more, a transfer whose source does not
block comes to its end. -/
theorem Tunnel.transfer_completes (src dest : Conn) (T0 : List Event)
    (hinv : TunnelInv src dest (Tunnel.start src dest T0)) (d : Dir) (s1 s2 : List Tid)
    (h1 : 2 ≤ s1.count Tid.main) (hb : (d.source src dest).final ≠ ReadEnd.block)
    (hn : (d.source src dest).chunks.length + 3 ≤ s2.count (Tid.transfer d)) :
    (((Tunnel.start src dest T0).run (s1 ++ s2)).get d).pc = TPc.finished ∧
    2 ≤ ((Tunnel.start src dest T0).run (s1 ++ s2)).mainPc.rank := by
  have hsrc : ((Tunnel.start src dest T0).get d).src = d.source src dest := by
    cases d <;> rfl
  have hsl : ((Tunnel.start src dest T0).get d).stepsLeft
      = (d.source src dest).chunks.length + 3 := by
    cases d <;> rfl
  have hb0 : ((Tunnel.start src dest T0).get d).src.final ≠ ReadEnd.block := by
    rw [hsrc]; exact hb
  obtain ⟨a1, a2, _⟩ := Tunnel.run_stepsLeft d s1 _ hinv hb0
  have hrk := (Tunnel.run_rank s1 (Tunnel.start src dest T0)).2
  have hrk0 : (Tunnel.start src dest T0).mainPc.rank = 0 := rfl
  rw [hrk0] at hrk
  have hrk2 : 2 ≤ ((Tunnel.start src dest T0).run s1).mainPc.rank := by omega
  have invA := TunnelInv.run s1 hinv
  have hni : (((Tunnel.start src dest T0).run s1).get d).pc ≠ TPc.idle := by
    intro hi
    cases d with
    | up =>
      have := invA.idle_up.mp hi
      rw [this] at hrk2
      simp [MainPc.rank] at hrk2
    | down =>
      rcases invA.idle_down.mp hi with h | h <;>
      · rw [h] at hrk2
        simp [MainPc.rank] at hrk2
  obtain ⟨_, _, b3⟩ := Tunnel.run_stepsLeft d s2 _ invA (by rw [a2]; exact hb0)
  obtain ⟨_, b5⟩ := b3 hni
  rw [Tunnel.run_append]
  refine ⟨Transfer.finished_of_stepsLeft _ (by omega), ?_⟩
  have := (Tunnel.run_rank s2 ((Tunnel.start src dest T0).run s1)).1
  omega

/-! ## The tunnel handler -/

theorem ResponseWriter.WriteHeader_hijack (w : ResponseWriter) (code : Nat) :
    (w.WriteHeader code).hijack = w.hijack := by
  unfold ResponseWriter.WriteHeader
  split
  · rfl
  · split <;> rfl

theorem handleTunnel_established (env : Env) (w : ResponseWriter) (r : Request)
    (dest src : Conn) (hdial : env.dial r.host = Except.ok dest)
    (hhj : w.hijack = HijackCap.ok src) :
    handleTunnel env w r =
      { w := { w.WriteHeader 200 with hijacked := true },
        trace := ((Tunnel.start src dest
          [Event.dial "tcp" r.host 10, Event.hijack true,
           Event.log (LogLine.tunnel r.proto r.method r.host),
           Event.log (LogLine.conns (connStr src) (connStr dest)),
           Event.wgAdd 2]).run env.schedule).trace,
        returned := decide (((Tunnel.start src dest
          [Event.dial "tcp" r.host 10, Event.hijack true,
           Event.log (LogLine.tunnel r.proto r.method r.host),
           Event.log (LogLine.conns (connStr src) (connStr dest)),
           Event.wgAdd 2]).run env.schedule).mainPc = MainPc.returned),
        written := none,
        tunnel := some ((Tunnel.start src dest
          [Event.dial "tcp" r.host 10, Event.hijack true,
           Event.log (LogLine.tunnel r.proto r.method r.host),
           Event.log (LogLine.conns (connStr src) (connStr dest)),
           Event.wgAdd 2]).run env.schedule) } := by
  have h := ResponseWriter.WriteHeader_hijack w 200
  rw [hhj] at h
  simp [handleTunnel, hdial, h]

/-- C9. In every run of `handleTunnel` that returns, whatever the order in
which the scheduler runs the two transfers and however each of them ends: when
the dial succeeded, the destination connection is closed, once, before the
return; when the hijack succeeded too, the client connection is closed as
well, once, and both closes come after both transfers have signalled their
end. -/
theorem handleTunnel_closes_connections (env : Env) (w : ResponseWriter) (r : Request)
    (dest : Conn) (hdial : env.dial r.host = Except.ok dest)
    (hret : (handleTunnel env w r).returned = true) :
    (handleTunnel env w r).trace.count Event.closeDest = 1 ∧
    (∀ src, w.hijack = HijackCap.ok src →
      (handleTunnel env w r).trace.count Event.closeSrc = 1 ∧
      ∃ pre, (handleTunnel env w r).trace
          = pre ++ [Event.wgWait, Event.closeSrc, Event.closeDest] ∧
        Event.wgDone Dir.up ∈ pre ∧ Event.wgDone Dir.down ∈ pre) := by
  cases hh : w.hijack with
  | unsupported =>
    have h := ResponseWriter.WriteHeader_hijack w 200
    rw [hh] at h
    refine ⟨?_, fun src hs => nomatch hs⟩
    simp [handleTunnel, hdial, h, List.count_cons]
  | fails e =>
    have h := ResponseWriter.WriteHeader_hijack w 200
    rw [hh] at h
    refine ⟨?_, fun src hs => nomatch hs⟩
    simp [handleTunnel, hdial, h, List.count_cons]
  | ok src =>
    have inv := TunnelInv.ofHandler env r src dest
    rw [handleTunnel_established env w r dest src hdial hh] at hret ⊢
    simp only [decide_eq_true_eq] at hret
    refine ⟨?_, ?_⟩
    · simp only [inv.close_dest, hret, if_true]
    · intro src' hs
      cases hs
      refine ⟨?_, ?_⟩
      · simp only [inv.close_src, hret, if_true]
      · exact (inv.at_return hret).2.2

/-- C9, at a tunnel whose upward transfer ends with a write error and whose
downward transfer ends first. -/
theorem handleTunnel_closes_connections_witness :
    (handleTunnel openWorld sampleWriter connectRequest).trace.count Event.closeDest = 1 :=
  (handleTunnel_closes_connections openWorld sampleWriter connectRequest
    { localAddr := "10.0.0.1:50000", remoteAddr := "93.184.216.34:443",
      incoming := { chunks := [[7, 8, 9]], final := ReadEnd.eof },
      outgoing := { got := [], room := some 2, failMsg := "write: broken pipe" } }
    rfl (by decide)).1

/-- C10. For every established tunnel and every order in which the scheduler
runs its threads: `handleTunnel` starts the two transfers, client to
destination and destination to client, and no other, and both are started once
the handler has taken two steps. Each transfer signals its end to the wait
group at most once; a transfer whose source does not block, given the steps of
its own `io.Copy` loop and three more, signals exactly once, whatever the
other transfer does and also when its copy reports an error, and what it has
delivered and counted is what `io.Copy` alone gives on its source and
destination. When the handler returns, both transfers have ended and each has
signalled exactly once before the return; and the handler does return when
both transfers have had their steps and the handler takes one more. -/
theorem handleTunnel_joins_transfers (env : Env) (w : ResponseWriter) (r : Request)
    (dest src : Conn) (hdial : env.dial r.host = Except.ok dest)
    (hhj : w.hijack = HijackCap.ok src) :
    spawns (handleTunnel env w r).trace <+: [Dir.up, Dir.down] ∧
    (∀ d, (handleTunnel env w r).trace.count (Event.wgDone d) ≤ 1) ∧
    ((handleTunnel env w r).returned = true →
      spawns (handleTunnel env w r).trace = [Dir.up, Dir.down] ∧
      (∀ d, (handleTunnel env w r).trace.count (Event.wgDone d) = 1) ∧
      (∃ pre, (handleTunnel env w r).trace
          = pre ++ [Event.wgWait, Event.closeSrc, Event.closeDest] ∧
        Event.wgDone Dir.up ∈ pre ∧ Event.wgDone Dir.down ∈ pre) ∧
      ∃ t, (handleTunnel env w r).tunnel = some t ∧
        t.up.pc = TPc.finished ∧ t.down.pc = TPc.finished ∧
        (ioCopy Sink.Write dest.outgoing src.incoming).2.2 ≠ CopyEnd.blocked ∧
        t.up.dst = (ioCopy Sink.Write dest.outgoing src.incoming).1 ∧
        t.up.written = (ioCopy Sink.Write dest.outgoing src.incoming).2.1 ∧
        (ioCopy Sink.Write src.outgoing dest.incoming).2.2 ≠ CopyEnd.blocked ∧
        t.down.dst = (ioCopy Sink.Write src.outgoing dest.incoming).1 ∧
        t.down.written = (ioCopy Sink.Write src.outgoing dest.incoming).2.1) ∧
    (2 ≤ env.schedule.count Tid.main →
      spawns (handleTunnel env w r).trace = [Dir.up, Dir.down]) ∧
    (∀ d s1 s2, env.schedule = s1 ++ s2 → 2 ≤ s1.count Tid.main →
      (d.source src dest).final ≠ ReadEnd.block →
      (d.source src dest).chunks.length + 3 ≤ s2.count (Tid.transfer d) →
      (handleTunnel env w r).trace.count (Event.wgDone d) = 1 ∧
      ∃ t, (handleTunnel env w r).tunnel = some t ∧ (t.get d).pc = TPc.finished ∧
        (t.get d).dst = (ioCopy Sink.Write (d.sink src dest) (d.source src dest)).1 ∧
        (t.get d).written = (ioCopy Sink.Write (d.sink src dest) (d.source src dest)).2.1) ∧
    (∀ s1 s2 s3, env.schedule = s1 ++ s2 ++ s3 → 2 ≤ s1.count Tid.main →
      src.incoming.final ≠ ReadEnd.block → dest.incoming.final ≠ ReadEnd.block →
      src.incoming.chunks.length + 3 ≤ s2.count (Tid.transfer Dir.up) →
      dest.incoming.chunks.length + 3 ≤ s2.count (Tid.transfer Dir.down) →
      1 ≤ s3.count Tid.main →
      (handleTunnel env w r).returned = true) := by
  have inv := TunnelInv.ofHandler env r src dest
  have inv0 := TunnelInv.atStart r src dest
  rw [handleTunnel_established env w r dest src hdial hhj]
  simp only [decide_eq_true_eq]
  refine ⟨?_, ?_, ?_, ?_, ?_, ?_⟩
  · rw [inv.spawned]
    split
    · exact ⟨[Dir.up, Dir.down], rfl⟩
    · exact ⟨[Dir.down], rfl⟩
    · exact ⟨[], rfl⟩
  · intro d
    cases d with
    | up => rw [inv.done_up]; split <;> simp
    | down => rw [inv.done_down]; split <;> simp
  · intro hret
    obtain ⟨hu, hd, hpre⟩ := inv.at_return hret
    have cu := inv.copy_up
    have cd := inv.copy_down
    unfold copyInv at cu cd
    rw [hu] at cu
    rw [hd] at cd
    simp only at cu cd
    refine ⟨?_, ?_, hpre, _, rfl, hu, hd, cu.2.2, cu.1.symm, cu.2.1.symm, cd.2.2, cd.1.symm,
      cd.2.1.symm⟩
    · rw [inv.spawned, hret]
    · intro d
      cases d with
      | up => rw [inv.done_up, hu]; simp
      | down => rw [inv.done_down, hd]; simp
  · intro hmain
    have hrk := (Tunnel.run_rank env.schedule (Tunnel.start src dest
      [Event.dial "tcp" r.host 10, Event.hijack true,
       Event.log (LogLine.tunnel r.proto r.method r.host),
       Event.log (LogLine.conns (connStr src) (connStr dest)),
       Event.wgAdd 2])).2
    have hrk0 : (Tunnel.start src dest
      [Event.dial "tcp" r.host 10, Event.hijack true,
       Event.log (LogLine.tunnel r.proto r.method r.host),
       Event.log (LogLine.conns (connStr src) (connStr dest)),
       Event.wgAdd 2]).mainPc.rank = 0 := rfl
    rw [hrk0] at hrk
    rw [inv.spawned]
    split
    · rename_i hpc; rw [hpc] at hrk; simp [MainPc.rank] at hrk; omega
    · rename_i hpc; rw [hpc] at hrk; simp [MainPc.rank] at hrk; omega
    · rfl
  · intro d s1 s2 hs h1 hb hn
    rw [hs] at inv ⊢
    obtain ⟨hfin, _⟩ := Tunnel.transfer_completes src dest _ inv0 d s1 s2 h1 hb hn
    cases d with
    | up =>
      simp only [Tunnel.get] at hfin
      have cu := inv.copy_up
      unfold copyInv at cu
      rw [hfin] at cu
      simp only at cu
      refine ⟨?_, _, rfl, hfin, cu.1.symm, cu.2.1.symm⟩
      rw [inv.done_up, hfin]; simp
    | down =>
      simp only [Tunnel.get] at hfin
      have cd := inv.copy_down
      unfold copyInv at cd
      rw [hfin] at cd
      simp only at cd
      refine ⟨?_, _, rfl, hfin, cd.1.symm, cd.2.1.symm⟩
      rw [inv.done_down, hfin]; simp
  · intro s1 s2 s3 hs h1 hbu hbd hnu hnd h3
    rw [hs]
    obtain ⟨fu, hrk⟩ := Tunnel.transfer_completes src dest _ inv0 Dir.up s1 s2 h1 hbu hnu
    obtain ⟨fd, _⟩ := Tunnel.transfer_completes src dest _ inv0 Dir.down s1 s2 h1 hbd hnd
    rw [Tunnel.run_append]
    exact Tunnel.run_returns s3 _ (TunnelInv.run (s1 ++ s2) inv0) fu fd hrk h3

/-- C10, at a tunnel whose downward transfer ends first and whose upward
transfer ends with a write error: the handler returns with both started. -/
theorem handleTunnel_joins_transfers_witness :
    spawns (handleTunnel openWorld sampleWriter connectRequest).trace = [Dir.up, Dir.down] :=
  ((handleTunnel_joins_transfers openWorld sampleWriter connectRequest
    { localAddr := "10.0.0.1:50000", remoteAddr := "93.184.216.34:443",
      incoming := { chunks := [[7, 8, 9]], final := ReadEnd.eof },
      outgoing := { got := [], room := some 2, failMsg := "write: broken pipe" } }
    { localAddr := "10.0.0.1:8888", remoteAddr := "10.0.0.2:40000",
      incoming := { chunks := [[1, 2], [3]], final := ReadEnd.eof },
      outgoing := { got := [], room := none, failMsg := "write: broken pipe" } }
    rfl rfl).2.2.1 (by decide)).1

/-- After a successful dial the handler has already written the header with
status 200 when it comes to the hijack, so the `http.Error(w, ..., 500)` of
either failure branch cannot set the status: the client receives 200, with
the error text as the body; no transfer is started, and the destination
connection is closed. -/
theorem handleTunnel_hijack_failure (env : Env) (room : Option Nat) (msg : String)
    (hj : HijackCap) (r : Request) (dest : Conn)
    (hdial : env.dial r.host = Except.ok dest)
    (hhj : ∀ src, hj ≠ HijackCap.ok src) :
    (handleTunnel env (ResponseWriter.fresh room msg hj) r).w.status = some 200 ∧
    (handleTunnel env (ResponseWriter.fresh room msg hj) r).w.sentHeader = [] ∧
    spawns (handleTunnel env (ResponseWriter.fresh room msg hj) r).trace = [] ∧
    (handleTunnel env (ResponseWriter.fresh room msg hj) r).tunnel = none ∧
    (handleTunnel env (ResponseWriter.fresh room msg hj) r).returned = true := by
  cases hj with
  | ok src => exact absurd rfl (hhj src)
  | unsupported =>
    simp [handleTunnel, hdial, ResponseWriter.fresh, ResponseWriter.WriteHeader, httpError,
      ResponseWriter.Write, spawns]
  | fails e =>
    simp [handleTunnel, hdial, ResponseWriter.fresh, ResponseWriter.WriteHeader, httpError,
      ResponseWriter.Write, spawns]

/-- C6, on the code: a `CONNECT` request whose dial succeeds, served on a
response writer that is no hijacker, and on one whose hijack fails. In both
runs the handler returns without starting a transfer, and the status the
client receives is 200, not 500; the text of the error is the body. -/
theorem hijack_failure_status_is_200 :
    (serve openWorld plainWriter connectRequest).returned = true ∧
    (serve openWorld plainWriter connectRequest).w.status = some 200 ∧
    (serve openWorld plainWriter connectRequest).w.body.got
      = bytesOf "webserver doesn\x27t support hijacking" ++ [10] ∧
    (serve openWorld plainWriter connectRequest).w.sent
      = bytesOf "webserver doesn\x27t support hijacking" ++ [10] ∧
    spawns (serve openWorld plainWriter connectRequest).trace = [] ∧
    (serve openWorld failingHijackWriter connectRequest).returned = true ∧
    (serve openWorld failingHijackWriter connectRequest).w.status = some 200 ∧
    (serve openWorld failingHijackWriter connectRequest).w.body.got
      = bytesOf "unexpected Peek failure reading buffered byte: EOF" ++ [10] ∧
    (serve openWorld failingHijackWriter connectRequest).w.sent
      = bytesOf "unexpected Peek failure reading buffered byte: EOF" ++ [10] ∧
    spawns (serve openWorld failingHijackWriter connectRequest).trace = [] := by
  refine ⟨?_, ?_, ?_, ?_, ?_, ?_, ?_, ?_, ?_, ?_⟩ <;> decide


/-- An established tunnel whose peers do not block: under the join schedule
`handleTunnel` returns. -/
theorem handleTunnel_returns (env : Env) (w : ResponseWriter) (r : Request)
    (dest src : Conn) (n : Nat) (hdial : env.dial r.host = Except.ok dest)
    (hhj : w.hijack = HijackCap.ok src) (hsched : env.schedule = joinSchedule n)
    (hs : src.incoming.final ≠ ReadEnd.block) (hd : dest.incoming.final ≠ ReadEnd.block)
    (hn1 : src.incoming.chunks.length + 3 ≤ n) (hn2 : dest.incoming.chunks.length + 3 ≤ n) :
    (handleTunnel env w r).returned = true := by
  rw [handleTunnel_established env w r dest src hdial hhj, hsched]
  simp only [decide_eq_true_eq]
  apply Tunnel.run_joinSchedule src dest _ n _ hs hd hn1 hn2
  apply TunnelInv.start
  · rfl
  · rfl
  · intro d; simp [List.count_cons]
  · simp [List.count_cons]
  · simp [List.count_cons]

/-- A body that ends with the end of the stream, copied to a client that
takes everything, is read to its end without error. -/
theorem ioCopyLoop_ok_of_room (chunks : List Bytes) :
    ∀ (w : ResponseWriter) (n : Nat), w.hijacked = false → w.body.room = none →
      (ioCopyLoop ResponseWriter.Write ReadEnd.eof chunks w n).2.2 = CopyEnd.ok := by
  induction chunks with
  | nil => intro w n _ _; rfl
  | cons c rest ih =>
    intro w n hh hr
    by_cases hc : c = []
    · subst hc
      rw [ioCopyLoop_cons, copyChunk_nil]
      exact ih w n hh hr
    · have hpos : 0 < c.length := List.length_pos.mpr hc
      have hb : (w.WriteHeader 200).body = w.body := by
        unfold ResponseWriter.WriteHeader
        simp only [hh, Bool.false_eq_true, if_false]
        cases w.status <;> rfl
      have hroom1 : (w.Write c).1.body.room = none := by
        by_cases hhead : (w.WriteHeader 200).head = true <;>
          simp [ResponseWriter.Write, hh, hb, Sink.Write, hr, hhead]
      have hw : (w.Write c).2 = (c.length, none) := by
        by_cases hhead : (w.WriteHeader 200).head = true <;>
          simp [ResponseWriter.Write, hh, hb, Sink.Write, hr, hhead]
      have hhd1 : (w.Write c).1.hijacked = false := by
        rw [(ResponseWriter.Write_frame w c).2.1, hh]
      have hcc : copyChunk ResponseWriter.Write w c n = ((w.Write c).1, n + c.length, none) := by
        simp [copyChunk, hpos, hw]
      rw [ioCopyLoop_cons, hcc]
      exact ih _ _ hhd1 hroom1

end Proxy
